import Mathlib

/-!
Verification development for the workflow graph compiler in
`flytekit/common/workflow.py`.

The Python source is shallowly embedded: Python classes become Lean structures
or inductives, methods become Lean functions, exceptions become `Except`
results, and the only mutation in the source (the `_id` field of a workflow
during `register`, and node id assignment during discovery) is made explicit
by state passing.  Opaque collaborators (literal values, the control-plane
client) are modelled by opaque parameters.  Python `dict`s are modelled by
association lists with explicit dict-insertion semantics (overwrite in place,
append new keys at the end), matching insertion-ordered Python dicts.
-/

/-- `flytekit.models.core.identifier.ResourceType` (only the values this file
uses). -/
inductive ResourceKind : Type where
  | task
  | workflow
  | launchPlanKind
deriving DecidableEq

/-- `flytekit.models.core.identifier.Identifier`: the five-component global
identifier used for workflows. -/
structure Identifier where
  resourceType : ResourceKind
  project : String
  domain : String
  name : String
  version : String
deriving DecidableEq

/-- Python `str(identifier)`: an opaque textual rendering of the identifier;
only injectivity on the components matters to the claims. -/
def Identifier.toText (i : Identifier) : String :=
  i.project ++ ":" ++ i.domain ++ ":" ++ i.name ++ ":" ++ i.version

/-- `flytekit.models.interface.Variable`: an opaque literal type plus a
description string. -/
structure Variable where
  litType : String
  description : String
deriving DecidableEq

/-- `flytekit.models.interface.TypedInterface`: name-keyed input and output
variable maps (insertion-ordered association lists, as Python dicts). -/
structure TypedInterface where
  inputs : List (String × Variable)
  outputs : List (String × Variable)
deriving DecidableEq

/-- `flytekit.models.literals.BindingData`: the source of one bound variable.
Literal values are opaque naturals. -/
inductive BindingData : Type where
  | scalar (v : Nat)
  | promise (nodeId : String) (varName : String)
  | wfInput (inputName : String)
deriving DecidableEq

/-- `flytekit.models.literals.Binding`: a variable name and its data source. -/
structure Binding where
  var : String
  binding : BindingData
deriving DecidableEq

/-- `flytekit.models.core.workflow.WorkflowMetadata` (content opaque: only the
optional on-failure policy is kept). -/
structure WfMeta where
  onFailure : Option Nat
deriving DecidableEq

/-- `flytekit.models.core.workflow.WorkflowMetadataDefaults` (content opaque).
-/
structure WfMetaDefaults where
  interruptible : Option Bool
deriving DecidableEq

/-- `flytekit.common.promise.Input` as consumed by this file: a name, a typed
variable, whether it is required, and an optional default literal. -/
structure WfInput where
  name : String
  var : Variable
  required : Bool
  default : Option Nat
deriving DecidableEq

/-- The `Output` class of `workflow.py`: a name, the binding data computed for
the promised value, and the declared variable. -/
structure OutputObj where
  name : String
  bindingData : BindingData
  var : Variable
deriving DecidableEq

/-- The exception taxonomy raised by the embedded code.  `flyteAssertion` is
`FlyteAssertion`, `flyteValue` is `FlyteValueException` (carrying the offending
attribute path), `typeErr` is the Python `TypeError` raised when a `None`
argument is iterated during defaulting, `systemErr` is
`FlyteSystemException`, `valueErr` is Python `ValueError`, `referenceErr`
models the reference error of the spec for unknown fixed-input names, and
`clientErr` wraps an opaque non-idempotent error from the control-plane
client. -/
inductive PyErr : Type where
  | flyteAssertion (msg : String)
  | flyteValue (attr : String) (msg : String)
  | typeErr
  | systemErr (msg : String)
  | valueErr (msg : String)
  | referenceErr (name : String)
  | clientErr (e : String)
deriving DecidableEq

/-- Reserved system node ids (`flytekit.common.constants.START_NODE_ID` /
`END_NODE_ID`). -/
def startNodeId : String := "start-node"

/-- See `startNodeId`. -/
def endNodeId : String := "end-node"

mutual

/-- The polymorphic executable reference carried by a node
(`task_node` / `branch_node` / `workflow_node` with a launch-plan or
sub-workflow reference).  For a sub-workflow reference, `hydrated` is the
`executable_sdk_object`: `some w` when the in-memory executable is a compiled
workflow, `none` when it is absent (the fatal-error path of
`get_sub_workflows`). -/
inductive ExecRef : Type where
  | taskRef (tid : String)
  | branchRef
  | launchPlanRef (rid : Identifier)
  | subWorkflowRef (rid : Identifier) (hydrated : Option SdkWorkflow)

/-- `flytekit.common.nodes.SdkNode` as consumed by `workflow.py`: an optional
assigned id, the in-memory upstream node references, the input bindings, and
the executable reference. -/
inductive SdkNode : Type where
  | mk (id : Option String) (upstream : List SdkNode) (bindings : List Binding)
       (ex : ExecRef)

/-- `SdkWorkflow`: id, metadata, metadata defaults, typed interface, nodes,
output bindings, and the authoring-time `_user_inputs` field (`none` exactly
when the constructor received `inputs=None`, as on the promotion path). -/
inductive SdkWorkflow : Type where
  | mk (id : Identifier) (metadata : WfMeta) (metadataDefaults : WfMetaDefaults)
       (interface : TypedInterface) (nodes : List SdkNode)
       (outputs : List Binding) (userInputs : Option (List WfInput))

end

/-- Field accessor. -/
def SdkNode.id : SdkNode → Option String
  | .mk i _ _ _ => i

/-- Field accessor. -/
def SdkNode.upstream : SdkNode → List SdkNode
  | .mk _ u _ _ => u

/-- Field accessor. -/
def SdkNode.bindings : SdkNode → List Binding
  | .mk _ _ b _ => b

/-- Field accessor. -/
def SdkNode.ex : SdkNode → ExecRef
  | .mk _ _ _ e => e

/-- Field accessor. -/
def SdkWorkflow.wfId : SdkWorkflow → Identifier
  | .mk i _ _ _ _ _ _ => i

/-- Field accessor. -/
def SdkWorkflow.metadata : SdkWorkflow → WfMeta
  | .mk _ m _ _ _ _ _ => m

/-- Field accessor. -/
def SdkWorkflow.metadataDefaults : SdkWorkflow → WfMetaDefaults
  | .mk _ _ d _ _ _ _ => d

/-- Field accessor. -/
def SdkWorkflow.interface : SdkWorkflow → TypedInterface
  | .mk _ _ _ i _ _ _ => i

/-- Field accessor. -/
def SdkWorkflow.nodes : SdkWorkflow → List SdkNode
  | .mk _ _ _ _ n _ _ => n

/-- Field accessor. -/
def SdkWorkflow.outputs : SdkWorkflow → List Binding
  | .mk _ _ _ _ _ o _ => o

/-- Field accessor (`self._user_inputs`). -/
def SdkWorkflow.userInputs : SdkWorkflow → Option (List WfInput)
  | .mk _ _ _ _ _ _ u => u

/-- Rebinding of the mutable `_id` field of a workflow (used by `register`). -/
def SdkWorkflow.withId (w : SdkWorkflow) (i : Identifier) : SdkWorkflow :=
  match w with
  | .mk _ m d itf n o u => .mk i m d itf n o u

/-- Message of the `FlyteSystemException` raised by `get_sub_workflows` when a
sub-workflow node has no hydrated workflow executable. -/
def badExecutableMsg : String :=
  "workflow node with subworkflow found but bad executable object"

mutual

/-- `SdkWorkflow.get_sub_workflows`: depth-first collection of every
transitively referenced hydrated sub-workflow, parents before their own
children, task/branch/launch-plan nodes skipped; a sub-workflow node without a
hydrated workflow executable raises `FlyteSystemException`. -/
def SdkWorkflow.getSubWorkflows : SdkWorkflow → Except PyErr (List SdkWorkflow)
  | .mk _ _ _ _ nodes _ _ => subWorkflowsOfNodes nodes

/-- The loop body of `get_sub_workflows` over the node list. -/
def subWorkflowsOfNodes : List SdkNode → Except PyErr (List SdkWorkflow)
  | [] => .ok []
  | .mk _ _ _ e :: rest =>
    match e with
    | .subWorkflowRef _ (some w) => do
        let inner ← w.getSubWorkflows
        let tail ← subWorkflowsOfNodes rest
        .ok (w :: (inner ++ tail))
    | .subWorkflowRef _ none => .error (.systemErr badExecutableMsg)
    | _ => subWorkflowsOfNodes rest

end

/-- Message of the `FlyteAssertion` raised when a node's upstream reference has
no assigned id. -/
def unassignedUpstreamMsg : String :=
  "Some nodes contained in the workflow were not found in the workflow description."

/-- The structural precondition loop at the top of `SdkWorkflow.__init__` and
`PythonWorkflow.construct_from_class_definition`: true iff some node has an
upstream reference whose id is unassigned. -/
def upstreamUnassigned (nodes : List SdkNode) : Bool :=
  nodes.any fun n => n.upstream.any fun u => u.id.isNone

/-- `SdkWorkflow.__init__`.  Optional arguments are `Option`s; `freshId` is
the identifier the constructor would synthesize from the active
project/domain/version context plus a fresh uuid (randomness passed in
explicitly).  Defaulting the interface or the output bindings with
`inputs=None` / `outputs=None` iterates `None` in Python and raises
`TypeError`; the upstream-id check runs before any of that. -/
def SdkWorkflow.construct (inputs : Option (List WfInput))
    (outputs : Option (List OutputObj)) (nodes : List SdkNode)
    (idArg : Option Identifier) (metadata : Option WfMeta)
    (metadataDefaults : Option WfMetaDefaults)
    (ifaceArg : Option TypedInterface) (outputBindings : Option (List Binding))
    (freshId : Identifier) : Except PyErr SdkWorkflow :=
  if upstreamUnassigned nodes then .error (.flyteAssertion unassignedUpstreamMsg)
  else
    let wid := idArg.getD freshId
    let md := metadata.getD ⟨none⟩
    let mdd := metadataDefaults.getD ⟨none⟩
    let ifaceE : Except PyErr TypedInterface :=
      match ifaceArg with
      | some i => .ok i
      | none =>
        match inputs, outputs with
        | some ins, some outs =>
            .ok ⟨ins.map (fun v => (v.name, v.var)),
                 outs.map (fun o => (o.name, o.var))⟩
        | _, _ => .error .typeErr
    let obE : Except PyErr (List Binding) :=
      match outputBindings with
      | some b => .ok b
      | none =>
        match outputs with
        | some outs => .ok (outs.map fun o => ⟨o.name, o.bindingData⟩)
        | none => .error .typeErr
    do
      let iface ← ifaceE
      let ob ← obE
      .ok (.mk wid md mdd iface nodes ob inputs)

/-- `PythonWorkflow`: the has-a wrapper around the compiled `SdkWorkflow`,
keeping the authoring-time inputs and nodes. -/
structure PythonWorkflow where
  flyteWorkflow : SdkWorkflow
  workflowInputs : List WfInput
  pnodes : List SdkNode

/-- `PythonWorkflow.construct_from_class_definition`: the same upstream-id
precondition, then explicit derivation of interface and output bindings, then
`SdkWorkflow.__init__` with `inputs=None, outputs=None`. -/
def PythonWorkflow.constructFromClassDefinition (inputs : List WfInput)
    (outputs : List OutputObj) (nodes : List SdkNode)
    (metadata : Option WfMeta) (metadataDefaults : Option WfMetaDefaults)
    (freshId : Identifier) : Except PyErr PythonWorkflow :=
  if upstreamUnassigned nodes then .error (.flyteAssertion unassignedUpstreamMsg)
  else
    let iface : TypedInterface :=
      ⟨inputs.map (fun v => (v.name, v.var)), outputs.map (fun o => (o.name, o.var))⟩
    let ob : List Binding := outputs.map fun o => ⟨o.name, o.bindingData⟩
    do
      let w ← SdkWorkflow.construct none none nodes (some freshId) metadata
        metadataDefaults (some iface) (some ob) freshId
      .ok ⟨w, inputs, nodes⟩

/-- Outcome of the single `create_workflow` call made by `register`:
the call succeeds, or the client reports the entity already exists
(`FlyteEntityAlreadyExistsException`), or it raises some other error. -/
inductive ClientOutcome : Type where
  | success
  | alreadyExists
  | failure (e : String)
deriving DecidableEq

/-- How a call to `register` terminates: a Python return value (`none` models
Python `None`, reached by falling off the end of the function) or a raised
exception. -/
inductive RegResult : Type where
  | returned (v : Option String)
  | raised (e : PyErr)
deriving DecidableEq

/-- `SdkWorkflow.register`: `validate()` (a no-op), build the fresh id from the
four components, save `old_id`, assign the new id *before* the call, then in
the `try` block compute the sub-workflow closure and call the client.
`FlyteEntityAlreadyExistsException` is swallowed (`pass`, so the function
returns `None`); any other exception rolls the id back to `old_id` and
re-raises; on success the id stays and `str(id)` is returned.  The function
returns the post-call workflow state together with the call result. -/
def SdkWorkflow.register (w : SdkWorkflow) (project domain name version : String)
    (outcome : ClientOutcome) : SdkWorkflow × RegResult :=
  let idToRegister : Identifier := ⟨.workflow, project, domain, name, version⟩
  let oldId := w.wfId
  let w1 := w.withId idToRegister
  match w1.getSubWorkflows with
  | .error e => (w1.withId oldId, .raised e)
  | .ok _ =>
    match outcome with
    | .success => (w1.withId idToRegister, .returned (some idToRegister.toText))
    | .alreadyExists => (w1, .returned none)
    | .failure e => (w1.withId oldId, .raised (.clientErr e))

/-- The serialized (wire) target of a node: the executable reference with the
in-memory hydrated objects dropped, ids kept. -/
inductive WireTarget : Type where
  | taskRef (tid : String)
  | branchRef
  | launchPlanRef (rid : Identifier)
  | subWorkflowRef (rid : Identifier)
deriving DecidableEq

/-- `flytekit.models.core.workflow.Node`: the serialized node. The
`upstreamIds` field is the node's `upstream_node_ids`, resolved from the
in-memory upstream references per the dependency-linking contract. -/
structure WireNode where
  id : Option String
  upstreamIds : List String
  bindings : List Binding
  target : WireTarget
deriving DecidableEq

/-- `flytekit.models.core.workflow.WorkflowTemplate` as emitted/consumed by
this file. -/
structure WireTemplate where
  id : Identifier
  metadata : WfMeta
  metadataDefaults : WfMetaDefaults
  interface : TypedInterface
  nodes : List WireNode
  outputs : List Binding
deriving DecidableEq

/-- `flytekit.models.admin.workflow.WorkflowSpec`: the primary template plus
the flattened sub-workflow templates. -/
structure WorkflowSpec where
  template : WireTemplate
  subWorkflowTemplates : List WireTemplate
deriving DecidableEq

/-- Serialization of an executable reference to its wire target. -/
def ExecRef.toWireTarget : ExecRef → WireTarget
  | .taskRef t => .taskRef t
  | .branchRef => .branchRef
  | .launchPlanRef r => .launchPlanRef r
  | .subWorkflowRef r _ => .subWorkflowRef r

/-- Serialization of a node: `upstream_node_ids` are the assigned ids of the
in-memory upstream references. -/
def SdkNode.serialize (n : SdkNode) : WireNode :=
  ⟨n.id, n.upstream.filterMap SdkNode.id, n.bindings, n.ex.toWireTarget⟩

/-- The `WorkflowTemplate` content of a workflow (what
`WorkflowSpec(self, ...)` serializes as the primary template). -/
def SdkWorkflow.serializeTemplate (w : SdkWorkflow) : WireTemplate :=
  ⟨w.wfId, w.metadata, w.metadataDefaults, w.interface,
   w.nodes.map SdkNode.serialize, w.outputs⟩

/-- `SdkWorkflow.serialize`: the same closure computation as `register`
(raising on a non-hydrated sub-workflow node), with no id mutation. -/
def SdkWorkflow.serialize (w : SdkWorkflow) : Except PyErr WorkflowSpec := do
  let subs ← w.getSubWorkflows
  .ok ⟨w.serializeTemplate, subs.map SdkWorkflow.serializeTemplate⟩

/-- Insertion-ordered Python `dict` assignment `m[k] = v`: overwrite in place
if the key exists, else append. -/
def dictInsert {κ α : Type} [DecidableEq κ] (m : List (κ × α)) (k : κ) (v : α) :
    List (κ × α) :=
  if m.any (fun p => p.1 = k) then
    m.map fun p => if p.1 = k then (k, v) else p
  else m ++ [(k, v)]

/-- Building a Python `dict` by assigning a sequence of key/value pairs into
an already-built dict. -/
def dictOfListAux {κ α : Type} [DecidableEq κ] (acc : List (κ × α)) :
    List (κ × α) → List (κ × α)
  | [] => acc
  | (k, v) :: rest => dictOfListAux (dictInsert acc k v) rest

/-- Python `dict.update`. -/
def dictUpdate {κ α : Type} [DecidableEq κ] (m : List (κ × α))
    (adds : List (κ × α)) : List (κ × α) :=
  dictOfListAux m adds

/-- Python `d[k]` lookup returning the first (unique) matching entry. -/
def dictFind {κ α : Type} [DecidableEq κ] : List (κ × α) → κ → Option α
  | [], _ => none
  | (k', v) :: rest, k => if k' = k then some v else dictFind rest k

/-- Lifting a fallible element function over a list, failing on the first
error (Python list comprehensions / loops over fallible calls). -/
def exceptMapList {α β : Type} (f : α → Except PyErr β) : List α → Except PyErr (List β)
  | [] => .ok []
  | x :: xs => do
      let y ← f x
      let ys ← exceptMapList f xs
      .ok (y :: ys)

/-- `SdkWorkflow.get_non_system_nodes`: drop the two reserved system node ids.
-/
def getNonSystemNodes (nodes : List WireNode) : List WireNode :=
  nodes.filter fun n => ¬(n.id = some startNodeId ∨ n.id = some endNodeId)

/-- A fallible left fold (a Python `for` loop mutating a dict in place,
stopping at the first raised exception). -/
def exceptFoldList {α β : Type} (f : β → α → Except PyErr β) :
    β → List α → Except PyErr β
  | b, [] => .ok b
  | b, x :: xs => do
      let b2 ← f b x
      exceptFoldList f b2 xs

/-- `current << upstream_node`: record an upstream reference on an
instantiated node. -/
def SdkNode.appendUpstream (n : SdkNode) (ups : List SdkNode) : SdkNode :=
  match n with
  | .mk i u b e => .mk i (u ++ ups) b e

/-- One pass of the upstream-wiring loop of `promote_from_model` for the wire
node `wn`: `current = node_map[n.id]` fetches the surviving map entry, each of
`current.upstream_node_ids` (the serialized upstream ids of the node the
surviving entry was instantiated from, carried in the entry's first component;
`<<` never changes them) is looked up in the map, and the resolved references
are recorded on `current` in place.  A missing id is Python's `KeyError`, a
fatal internal-consistency error. -/
def linkWireNode (nodeMap : List (Option String × (WireNode × SdkNode)))
    (wn : WireNode) :
    Except PyErr (List (Option String × (WireNode × SdkNode))) := do
  let cur ← match dictFind nodeMap wn.id with
    | some c => Except.ok c
    | none => Except.error (.systemErr "missing node id")
  let ups ← exceptMapList (fun uid =>
      match dictFind nodeMap (some uid) with
      | some u => Except.ok u.2
      | none => Except.error (.systemErr "missing upstream node id"))
    cur.1.upstreamIds
  Except.ok (dictInsert nodeMap wn.id (cur.1, cur.2.appendUpstream ups))

mutual

/-- Modelled from the spec: `flytekit.common.nodes.SdkNode.promote_from_model`
is not under `src/`.  Per §4.4 the node-level promotion routine instantiates a
node from its serialized form and recursively promotes a nested sub-workflow
executable using the supplied lookup table (keyed by template id); a task or
branch target keeps its reference unhydrated here.  The recursion through the
lookup table is bounded by explicit fuel (the caller passes more fuel than the
table size, so fuel never runs out on well-formed tables). -/
def promoteNodeFromModel (fuel : Nat)
    (subWorkflows : List (Identifier × WireTemplate))
    (tasks : List (Identifier × String)) (wn : WireNode) : SdkNode :=
  let e : ExecRef :=
    match wn.target with
    | .taskRef t => .taskRef t
    | .branchRef => .branchRef
    | .launchPlanRef r => .launchPlanRef r
    | .subWorkflowRef r =>
      match fuel, dictFind subWorkflows r with
      | Nat.succ f, some t =>
          .subWorkflowRef r (promoteTemplateFromModel f subWorkflows tasks t).toOption
      | _, _ => .subWorkflowRef r none
  .mk wn.id [] wn.bindings e

/-- `SdkWorkflow.promote_from_model` with explicit recursion fuel: strip the
system nodes, build `node_map = {n.id: SdkNode.promote_from_model(n, ...)}`
(a key occurring twice keeps its first position, the later value — the
promotion of the later wire node — winning; each dict value carries the wire
node it was promoted from, whose serialized upstream ids the wiring loop
reads as `current.upstream_node_ids`), run the wiring loop over all stripped
wire nodes mutating the dict in place, and rebuild through the constructor
from `list(node_map.values())` with `inputs=None, outputs=None` and the
serialized interface and output bindings. -/
def promoteTemplateFromModel (fuel : Nat)
    (subWorkflows : List (Identifier × WireTemplate))
    (tasks : List (Identifier × String)) (t : WireTemplate) :
    Except PyErr SdkWorkflow :=
  let nonSystem := getNonSystemNodes t.nodes
  let nodeMap : List (Option String × (WireNode × SdkNode)) :=
    dictOfListAux [] (nonSystem.map fun wn =>
      (wn.id, (wn, promoteNodeFromModel fuel subWorkflows tasks wn)))
  do
    let linked ← exceptFoldList linkWireNode nodeMap nonSystem
    SdkWorkflow.construct none none (linked.map fun kv => kv.2.2) (some t.id)
      (some t.metadata) (some t.metadataDefaults) (some t.interface)
      (some t.outputs) t.id

end

/-- `SdkWorkflow.promote_from_model` (fuel instantiated above the table
size). -/
def SdkWorkflow.promoteFromModel (t : WireTemplate)
    (subWorkflows : List (Identifier × WireTemplate))
    (tasks : List (Identifier × String)) : Except PyErr SdkWorkflow :=
  promoteTemplateFromModel (subWorkflows.length + 1) subWorkflows tasks t

/-- The launch plan record built by the launch-plan constructor: the
renamed default inputs (a `ParameterMap`-shaped dict) and the packed fixed
inputs (a literal map). -/
structure LaunchPlanModel where
  defaultInputs : List (String × WfInput)
  fixedInputs : List (String × Nat)
  assumableIamRole : Option String
  kubernetesServiceAccount : Option String
deriving DecidableEq

/-- Modelled from the spec:
`flytekit.common.types.helpers.pack_python_std_map_to_literal_map` is not
under `src/`.  Per §4.6 the fixed-input values are validated and packed
against the declared types for those names; a fixed-input name with no
declared type (not in the workflow interface) is a reference error.  Values
and their packing are opaque (naturals pass through). -/
def packPythonStdMapToLiteralMap (values : List (String × Nat))
    (types : List (String × Variable)) : Except PyErr (List (String × Nat)) :=
  exceptMapList (fun kv =>
    match dictFind types kv.1 with
    | some _ => Except.ok kv
    | none => Except.error (.referenceErr kv.1)) values

/-- Modelled from the spec:
`flytekit.common.launch_plan.SdkRunnableLaunchPlan.__init__` is not under
`src/`.  Per §3 a `LaunchPlan` carries the invariant that a name present in
`fixed_inputs` must not also appear in `default_inputs` (a
reference/structural conflict, §8), and per §4.6 the fixed inputs are packed
against the workflow interface's declared types for those names. -/
def SdkRunnableLaunchPlan.build (wf : PythonWorkflow)
    (defaultInputs : List (String × WfInput)) (fixedInputs : List (String × Nat))
    (assumableIamRole : Option String) (kubernetesServiceAccount : Option String) :
    Except PyErr LaunchPlanModel :=
  match fixedInputs.find? (fun kv => defaultInputs.any fun dv => dv.1 = kv.1) with
  | some kv => .error (.referenceErr kv.1)
  | none => do
      let packed ← packPythonStdMapToLiteralMap fixedInputs
        (wf.flyteWorkflow.interface.inputs.filter fun tv =>
          fixedInputs.any fun kv => kv.1 = tv.1)
      .ok ⟨defaultInputs, packed, assumableIamRole, kubernetesServiceAccount⟩

/-- `PythonWorkflow.create_launch_plan`: reject a deprecated `role` combined
with the new auth arguments, start the default-input candidates from the
workflow's declared inputs excluding names fixed by `fixed_inputs`, apply the
caller-supplied `default_inputs` on top (caller wins on collision, dict-update
semantics), rename each default input to its key, and hand everything to the
launch-plan constructor. -/
def PythonWorkflow.createLaunchPlan (pw : PythonWorkflow)
    (defaultInputs : Option (List (String × WfInput)))
    (fixedInputs : Option (List (String × Nat)))
    (role : Option String) (assumableIamRole : Option String)
    (kubernetesServiceAccount : Option String) : Except PyErr LaunchPlanModel :=
  if role.isSome ∧ (assumableIamRole.isSome ∨ kubernetesServiceAccount.isSome) then
    .error (.valueErr "Cannot set both role and auth.")
  else
    let fixed := fixedInputs.getD []
    let fromWorkflow : List (String × WfInput) :=
      (pw.workflowInputs.filter fun v => ¬ fixed.any fun kv => kv.1 = v.name).map
        fun v => (v.name, v)
    let merged := dictUpdate (dictOfListAux [] fromWorkflow) (defaultInputs.getD [])
    let iam := if role.isSome then role else assumableIamRole
    let renamed := merged.map fun kv => (kv.1, { kv.2 with name := kv.1 })
    SdkRunnableLaunchPlan.build pw renamed fixed iam kubernetesServiceAccount

/-- A call-time argument value for invoking a workflow as a node: a literal,
the output promise of another node, or a workflow-input reference. -/
inductive CallValue : Type where
  | lit (v : Nat)
  | nodeOutput (n : SdkNode) (varName : String)
  | wfInputRef (name : String)

/-- The binding data a call-time value resolves to. -/
def CallValue.toBindingData : CallValue → BindingData
  | .lit v => .scalar v
  | .nodeOutput n vn => .promise (n.id.getD "") vn
  | .wfInputRef nm => .wfInput nm

/-- The upstream node implied by a call-time value, if any. -/
def CallValue.upstreamNode : CallValue → Option SdkNode
  | .nodeOutput n _ => some n
  | _ => none

/-- Comparison used to sort bindings by variable name
(`sorted(bindings, key=lambda b: b.var)`). -/
def bindingLe (a b : Binding) : Prop := a.var ≤ b.var

instance : DecidableRel bindingLe := fun a b =>
  inferInstanceAs (Decidable (a.var ≤ b.var))

instance : IsTotal Binding bindingLe := ⟨fun a b => le_total a.var b.var⟩

instance : IsTrans Binding bindingLe := ⟨fun _ _ _ h1 h2 => le_trans h1 h2⟩

/-- Modelled from the spec:
`flytekit.common.interface.TypedInterface.create_bindings_for_inputs` is not
under `src/`.  Per §4.3 it resolves a call-time argument mapping into one
binding per argument (sorted by variable name) together with the upstream
nodes implied by node-output references. -/
def createBindingsForInputs (inputMap : List (String × CallValue)) :
    List Binding × List SdkNode :=
  (List.insertionSort bindingLe
     (inputMap.map fun kv => ⟨kv.1, kv.2.toBindingData⟩),
   inputMap.filterMap fun kv => kv.2.upstreamNode)

/-- `SdkWorkflow.__call__` with keyword arguments only: resolve the bindings,
and build the placeholder node (id unassigned, bindings sorted by variable
name, executable this workflow). -/
def SdkWorkflow.callAsNode (w : SdkWorkflow)
    (inputMap : List (String × CallValue)) : SdkNode :=
  let resolved := createBindingsForInputs inputMap
  SdkNode.mk none resolved.2 (List.insertionSort bindingLe resolved.1)
    (.subWorkflowRef w.wfId (some w))

/-- The content of an `SdkNode` object as it sits on the declaration surface
before discovery: its (usually unassigned) id, its upstream references given
as heap addresses of other node objects (Python aliasing made explicit), and
its bindings. -/
structure HeapNode where
  id : Option String
  upstreamRefs : List Nat
  bindings : List Binding
deriving DecidableEq

/-- A runtime value reachable while walking the declaration surface: a node,
an `Input`, an `Output`, a list/set/tuple, a dict, or anything else. -/
inductive ObjVal : Type where
  | nodeObj (hn : HeapNode)
  | inputObj (d : WfInput)
  | outputObj (d : OutputObj)
  | listObj (elems : List Nat)
  | dictObj (entries : List (Nat × Nat))
  | otherObj
deriving DecidableEq

/-- The declaration surface (the user-defined workflow class): a heap of
objects addressed by Python object identity (arena indices), and the
top-level attributes `dir()` finds, as name/address pairs. -/
structure Surface where
  heap : List ObjVal
  attrs : List (String × Nat)

/-- The three entity lists `_discover_workflow_components` accumulates; each
entry is (synthesized name, heap address). -/
structure DiscResult where
  inputs : List (String × Nat)
  outputs : List (String × Nat)
  nodes : List (String × Nat)
deriving DecidableEq

/-- `_assign_indexed_attribute_name`. -/
def assignIndexedAttributeName (attr idx : String) : String :=
  attr ++ "[" ++ idx ++ "]"

/-- The child entries a container value enqueues: list/set/tuple elements by
index, and for dicts every key and then every value (either may itself be an
entity), all under synthesized indexed names. -/
def childEntries (nm : String) (v : ObjVal) : List (String × Nat) :=
  match v with
  | .listObj elems =>
      elems.enum.map fun p => (assignIndexedAttributeName nm (toString p.1), p.2)
  | .dictObj entries =>
      entries.map (fun p => (assignIndexedAttributeName nm (toString p.1), p.1)) ++
      entries.map (fun p => (assignIndexedAttributeName nm (toString p.1), p.2))
  | _ => []

/-- Message of the placement error for an `Input` found below top level. -/
def inputPlacementMsg : String :=
  "Detected workflow input specified outside of top level."

/-- Message of the placement error for an `Output` found below top level. -/
def outputPlacementMsg : String :=
  "Detected workflow output specified outside of top level."

/-- The BFS loop of `_discover_workflow_components`: pop a (synthesized name,
object) pair; skip if the object identity was already visited, else mark it
visited and dispatch on its runtime type.  Nodes are collected with the name
assigned as their id; `Input`/`Output` must carry a top-level attribute name
or a placement error is raised; containers enqueue their children at the back
of the queue; anything else is ignored.  Termination: each step either visits
a new heap address or shortens the queue. -/
def discoverAux (heap : List ObjVal) (tops : List String) :
    List (String × Nat) → Finset ℕ → DiscResult →
    Except PyErr (DiscResult × Finset ℕ)
  | [], vis, acc => .ok (acc, vis)
  | (nm, oid) :: rest, vis, acc =>
    if hvis : oid ∈ vis then discoverAux heap tops rest vis acc
    else
      match hv : heap[oid]? with
      | some (.nodeObj _) =>
          discoverAux heap tops rest (insert oid vis)
            { acc with nodes := acc.nodes ++ [(nm, oid)] }
      | some (.inputObj _) =>
          if nm ∈ tops then
            discoverAux heap tops rest (insert oid vis)
              { acc with inputs := acc.inputs ++ [(nm, oid)] }
          else .error (.flyteValue nm inputPlacementMsg)
      | some (.outputObj _) =>
          if nm ∈ tops then
            discoverAux heap tops rest (insert oid vis)
              { acc with outputs := acc.outputs ++ [(nm, oid)] }
          else .error (.flyteValue nm outputPlacementMsg)
      | some (.listObj elems) =>
          discoverAux heap tops (rest ++ childEntries nm (.listObj elems))
            (insert oid vis) acc
      | some (.dictObj entries) =>
          discoverAux heap tops (rest ++ childEntries nm (.dictObj entries))
            (insert oid vis) acc
      | some .otherObj => discoverAux heap tops rest (insert oid vis) acc
      | none => discoverAux heap tops rest (insert oid vis) acc
termination_by q vis _ =>
  ((heap.length - (vis.filter (· < heap.length)).card : Nat), q.length)
decreasing_by
  all_goals
    first
    | exact Prod.Lex.right _ (by simp)
    | · apply Prod.Lex.left
        have hlt : oid < heap.length := by
          by_contra hc
          have hnone : heap[oid]? = none := List.getElem?_eq_none (by omega)
          rw [hnone] at hv; cases hv
        have hfi : (insert oid vis).filter (· < heap.length) =
            insert oid (vis.filter (· < heap.length)) := by
          rw [Finset.filter_insert]; simp [hlt]
        have hA : oid ∉ vis.filter (· < heap.length) := fun hmem =>
          hvis (Finset.mem_filter.mp hmem).1
        have hsub : insert oid (vis.filter (· < heap.length)) ⊆
            Finset.range heap.length := by
          intro y hy
          rcases Finset.mem_insert.mp hy with rfl | hy'
          · exact Finset.mem_range.mpr hlt
          · exact Finset.mem_range.mpr (Finset.mem_filter.mp hy').2
        have hcard : (vis.filter (· < heap.length)).card + 1 ≤ heap.length := by
          have h1 := Finset.card_le_card hsub
          rwa [Finset.card_insert_of_not_mem hA, Finset.card_range] at h1
        rw [hfi, Finset.card_insert_of_not_mem hA]
        omega
    | · have hge : heap.length ≤ oid := by
          by_contra hc
          push_neg at hc
          simp [List.getElem?_eq_getElem hc] at hv
        have heq : (insert oid vis).filter (· < heap.length) =
            vis.filter (· < heap.length) := by
          rw [Finset.filter_insert]
          have hn : ¬ (oid < heap.length) := by omega
          simp [hn]
        rw [heq]
        exact Prod.Lex.right _ (by simp)

/-- Name-ordering on (synthesized name, address) pairs, used both for the
sorted `dir()` iteration order and for the final `sorted(..., key=name)` /
`sorted(..., key=id)` calls in `build_sdk_workflow_from_metaclass`. -/
def pairNameLe (a b : String × Nat) : Prop := a.1 ≤ b.1

instance : DecidableRel pairNameLe := fun a b =>
  inferInstanceAs (Decidable (a.1 ≤ b.1))

instance : IsTotal (String × Nat) pairNameLe := ⟨fun a b => le_total a.1 b.1⟩

instance : IsTrans (String × Nat) pairNameLe := ⟨fun _ _ _ h1 h2 => le_trans h1 h2⟩

/-- `_discover_workflow_components`: seed the queue with every top-level
attribute (in `dir()`'s sorted order), remember the set of top-level names,
and run the BFS loop with an empty identity-visited set. -/
def discoverWorkflowComponents (s : Surface) :
    Except PyErr (DiscResult × Finset ℕ) :=
  discoverAux s.heap (s.attrs.map Prod.fst)
    (List.insertionSort pairNameLe s.attrs) ∅ ⟨[], [], []⟩

/-- The renamed `Input` object for a collected entry
(`rename_and_return_reference`). -/
def materializeInput (heap : List ObjVal) (p : String × Nat) : WfInput :=
  match heap[p.2]? with
  | some (.inputObj d) => { d with name := p.1 }
  | _ => ⟨p.1, ⟨"", ""⟩, true, none⟩

/-- The renamed `Output` object for a collected entry
(`rename_and_return_reference`). -/
def materializeOutput (heap : List ObjVal) (p : String × Nat) : OutputObj :=
  match heap[p.2]? with
  | some (.outputObj d) => { d with name := p.1 }
  | _ => ⟨p.1, .scalar 0, ⟨"", ""⟩⟩

/-- The id discovery assigned to the node object at heap address `r`, if that
object was collected (`assign_id_and_return` mutates the shared object, so
every holder of a reference to it observes the assigned id). -/
def assignedName (collected : List (String × Nat)) (r : Nat) : Option String :=
  (collected.find? fun q => q.2 == r).map Prod.fst

/-- The `SdkNode` object for a collected entry, with its id assigned to the
synthesized name and its upstream heap references resolved to node values
whose ids reflect any assignment discovery performed on the shared objects. -/
def materializeNode (heap : List ObjVal) (collected : List (String × Nat))
    (p : String × Nat) : SdkNode :=
  match heap[p.2]? with
  | some (.nodeObj hn) =>
      SdkNode.mk (some p.1)
        (hn.upstreamRefs.map fun r =>
          match heap[r]? with
          | some (ObjVal.nodeObj hu) =>
              SdkNode.mk
                (match assignedName collected r with
                 | some s => some s
                 | none => hu.id) [] hu.bindings (.taskRef "")
          | _ => SdkNode.mk none [] [] .branchRef)
        hn.bindings (.taskRef "")
  | _ => SdkNode.mk (some p.1) [] [] (.taskRef "")

/-- `build_sdk_workflow_from_metaclass`: discover the components, then build
via `construct_from_class_definition` with inputs and outputs sorted by name
and nodes sorted by their assigned id.  Sorting the collected (name, address)
pairs by name coincides with sorting the renamed objects by `x.name` /
`x.id`, since renaming sets exactly that key. -/
def buildSdkWorkflowFromMetaclass (s : Surface) (onFailure : Option Nat)
    (freshId : Identifier) : Except PyErr PythonWorkflow := do
  let rv ← discoverWorkflowComponents s
  let r := rv.1
  PythonWorkflow.constructFromClassDefinition
    ((List.insertionSort pairNameLe r.inputs).map (materializeInput s.heap))
    ((List.insertionSort pairNameLe r.outputs).map (materializeOutput s.heap))
    ((List.insertionSort pairNameLe r.nodes).map (materializeNode s.heap r.nodes))
    (some ⟨onFailure⟩) none freshId

/-- Whether a node's target is a `workflow_node` carrying a
`sub_workflow_ref` (the node kind `get_sub_workflows` descends into). -/
def isSubWorkflowNode (n : SdkNode) : Bool :=
  match n.ex with
  | .subWorkflowRef _ _ => true
  | _ => false

/-- Whether a synthesized attribute name contains the `[` that every
nested-position name carries (top-level Python attribute names are
identifiers and cannot contain it). -/
def hasBracket (nm : String) : Bool := nm.data.contains '['

/-- The heap addresses a container value can lead the traversal to. -/
def childIds (v : ObjVal) : List Nat :=
  match v with
  | .listObj elems => elems
  | .dictObj entries => entries.map Prod.fst ++ entries.map Prod.snd
  | _ => []

/-- Reachability of a heap object from the declaration surface: directly from
a top-level attribute, or through a chain of containers. -/
inductive ReachesObj (s : Surface) : Nat → Prop where
  | top (nm : String) (oid : Nat) : (nm, oid) ∈ s.attrs → ReachesObj s oid
  | child (cid oid : Nat) (v : ObjVal) : ReachesObj s cid →
      s.heap[cid]? = some v → oid ∈ childIds v → ReachesObj s oid

/-- The heap object at `oid` is an `Input` or an `Output`. -/
def isEntityIO (heap : List ObjVal) (oid : Nat) : Prop :=
  (∃ d, heap[oid]? = some (.inputObj d)) ∨ (∃ d, heap[oid]? = some (.outputObj d))

/-- The component lists of discovery, dropping the internal visited set. -/
def discoverComponentsOnly (s : Surface) : Except PyErr DiscResult :=
  (discoverWorkflowComponents s).map Prod.fst

/-- The heap addresses of every collected entity, in collection order. -/
def discIds (r : DiscResult) : List Nat :=
  (r.inputs ++ r.outputs ++ r.nodes).map Prod.snd

/-- Concrete sample data used by witnesses and counterexamples. -/
def sampleIdentifier : Identifier :=
  ⟨.workflow, "project", "domain", "wfname", "version"⟩

/-- An opaque integer variable type. -/
def intVar : Variable := ⟨"Int", ""⟩

/-- A sample one-input/one-output interface. -/
def sampleInterface : TypedInterface := ⟨[("x", intVar)], [("result", intVar)]⟩

/-- The declared input `x`. -/
def xInput : WfInput := ⟨"x", intVar, true, none⟩

/-- The declared output `result`, bound to node `n1`'s output `y`. -/
def resultOutput : OutputObj := ⟨"result", .promise "n1" "y", intVar⟩

/-- A sample node-free workflow. -/
def sampleWorkflow : SdkWorkflow :=
  .mk sampleIdentifier ⟨none⟩ ⟨none⟩ sampleInterface []
    [⟨"result", .promise "n1" "y"⟩] (some [xInput])

/-- A sample wrapped Python workflow. -/
def samplePythonWorkflow : PythonWorkflow := ⟨sampleWorkflow, [xInput], []⟩

/-- A sample optional input named `a`. -/
def sampleInputA : WfInput := ⟨"a", intVar, false, some 1⟩

/-- A task node whose id collides with the reserved start-node sentinel. -/
def startNamedNode : SdkNode := .mk (some startNodeId) [] [] (.taskRef "t0")

/-- The workflow the constructor accepts for `startNamedNode`. -/
def startNamedWorkflow : SdkWorkflow :=
  .mk sampleIdentifier ⟨none⟩ ⟨none⟩ ⟨[], []⟩ [startNamedNode] [] (some [])

/-- What promotion of `startNamedWorkflow`'s template yields: the node is
stripped as a system node. -/
def promotedStartNamed : SdkWorkflow :=
  .mk sampleIdentifier ⟨none⟩ ⟨none⟩ ⟨[], []⟩ [] [] none

/-- A task node with assigned id `n1` consuming workflow input `x`. -/
def nodeN1 : SdkNode := .mk (some "n1") [] [⟨"x", .wfInput "x"⟩] (.taskRef "task1")

/-- The workflow `construct` produces for the round-trip witness. -/
def roundtripSource : SdkWorkflow :=
  .mk sampleIdentifier ⟨none⟩ ⟨none⟩ sampleInterface [nodeN1]
    [⟨"result", .promise "n1" "y"⟩] (some [xInput])

/-- A workflow with a single task node and no sub-workflow nodes. -/
def leafWorkflow : SdkWorkflow :=
  .mk ⟨.workflow, "p", "d", "leaf", "v"⟩ ⟨none⟩ ⟨none⟩ ⟨[], []⟩
    [.mk (some "t") [] [] (.taskRef "t1")] [] none

/-- A sample argument mapping in one order. -/
def callMapBA : List (String × CallValue) := [("b", .lit 1), ("a", .lit 2)]

/-- The same argument mapping in the other order. -/
def callMapAB : List (String × CallValue) := [("a", .lit 2), ("b", .lit 1)]

/-- A surface whose only `Input` sits inside a list (nested position). -/
def nestedInputSurface : Surface :=
  ⟨[.listObj [1], .inputObj sampleInputA], [("lst", 0)]⟩

/-- A surface with one `Input` object aliased by two top-level attributes. -/
def aliasSurface : Surface := ⟨[.inputObj sampleInputA], [("a", 0), ("b", 0)]⟩

/-- A surface whose single list contains itself (a cyclic object graph). -/
def cyclicSurface : Surface := ⟨[.listObj [0]], [("lst", 0)]⟩

/-- A surface with two node objects (the second referencing the first as
upstream) and one input, attribute order deliberately unsorted. -/
def buildSurface : Surface :=
  ⟨[.nodeObj ⟨none, [], []⟩, .inputObj sampleInputA, .nodeObj ⟨none, [0], []⟩],
   [("n1", 0), ("x", 1), ("n2", 2)]⟩

/-- The first materialized node of `buildSurface`. -/
def builtN1 : SdkNode := .mk (some "n1") [] [] (.taskRef "")

/-- The second materialized node of `buildSurface`, upstream of `builtN1`. -/
def builtN2 : SdkNode := .mk (some "n2") [builtN1] [] (.taskRef "")

/-- The workflow `build_sdk_workflow_from_metaclass` produces from
`buildSurface`. -/
def builtSample : PythonWorkflow :=
  ⟨.mk sampleIdentifier ⟨none⟩ ⟨none⟩ ⟨[("x", intVar)], []⟩ [builtN1, builtN2] [] none,
   [⟨"x", intVar, false, some 1⟩], [builtN1, builtN2]⟩

/-- Strict comparison on bindings by variable name (used to show sorted
binding sequences with distinct names are unique). -/
def bindingLt (a b : Binding) : Prop := a.var < b.var

instance : IsAntisymm Binding bindingLt := ⟨fun _ _ h1 h2 => absurd h2 (lt_asymm h1)⟩

/-!
## Theorems

Supporting lemmas first, then one theorem per claim (with witnesses and
counterexamples as required).
-/

/-- The structural precondition as an existential. -/
theorem upstreamUnassigned_iff (nodes : List SdkNode) :
    upstreamUnassigned nodes = true ↔ ∃ n ∈ nodes, ∃ u ∈ n.upstream, u.id = none := by
  simp [upstreamUnassigned, List.any_eq_true, Option.isNone_iff_eq_none]

/-- `get_sub_workflows` ignores the workflow id. -/
theorem getSubWorkflows_withId (w : SdkWorkflow) (i : Identifier) :
    (w.withId i).getSubWorkflows = w.getSubWorkflows := by
  cases w with
  | mk a b c d n o u => simp [SdkWorkflow.withId, SdkWorkflow.getSubWorkflows]

/-- **C1 (counterexample).** At a concrete workflow, `register` against an
already-existing id completes without raising and keeps the newly assigned id
in the workflow, but its Python return value is `None`, not the new id string
the claim asserts. -/
theorem claimC1_counterexample :
    (SdkWorkflow.register sampleWorkflow "p" "d" "n" "v" .alreadyExists).2
      = .returned none
    ∧ RegResult.returned none
        ≠ RegResult.returned (some (Identifier.toText ⟨.workflow, "p", "d", "n", "v"⟩))
    ∧ (SdkWorkflow.register sampleWorkflow "p" "d" "n" "v" .alreadyExists).1.wfId
        = ⟨.workflow, "p", "d", "n", "v"⟩ :=
  ⟨rfl, by decide, rfl⟩

/-- **C1 (amended).** If the client reports the entity already exists (and the
sub-workflow closure was computed without error, i.e. the call was reached),
`register` returns normally — with Python's implicit `None`, not the id
string — and the workflow keeps the newly assigned id built from the four
components: no rollback happens. -/
theorem claimC1_register_already_exists (w : SdkWorkflow) (p d n v : String)
    (h : ∃ l, w.getSubWorkflows = Except.ok l) :
    SdkWorkflow.register w p d n v .alreadyExists
      = (w.withId ⟨.workflow, p, d, n, v⟩, .returned none) := by
  obtain ⟨l, hl⟩ := h
  unfold SdkWorkflow.register
  simp only [getSubWorkflows_withId, hl]

/-- Witness for C1 (amended) at a concrete workflow. -/
theorem claimC1_register_already_exists_witness :
    SdkWorkflow.register sampleWorkflow "p" "d" "n" "v" .alreadyExists
      = (sampleWorkflow.withId ⟨.workflow, "p", "d", "n", "v"⟩, .returned none) :=
  claimC1_register_already_exists sampleWorkflow "p" "d" "n" "v" ⟨[], rfl⟩

/-- **C2.** If the client raises any error other than the already-exists
condition, `register` restores the workflow id to its exact pre-call value
(the returned state is the original workflow unchanged) and propagates the
error. -/
theorem claimC2_register_rollback (w : SdkWorkflow) (p d n v e : String)
    (h : ∃ l, w.getSubWorkflows = Except.ok l) :
    SdkWorkflow.register w p d n v (.failure e) = (w, .raised (.clientErr e)) := by
  obtain ⟨l, hl⟩ := h
  cases w with
  | mk a b c dd nn oo uu =>
      unfold SdkWorkflow.register
      simp only [getSubWorkflows_withId, hl]
      rfl

/-- Witness for C2 at a concrete workflow and error. -/
theorem claimC2_register_rollback_witness :
    SdkWorkflow.register sampleWorkflow "p" "d" "n" "v" (.failure "boom")
      = (sampleWorkflow, .raised (.clientErr "boom")) :=
  claimC2_register_rollback sampleWorkflow "p" "d" "n" "v" "boom" ⟨[], rfl⟩

/-- **C3.** Construction fails with the structural `FlyteAssertion` iff some
node has an upstream reference with an unassigned id — for every combination
of the optional arguments, in particular also those whose defaulting would
itself raise (`inputs=None` with `interface=None`), showing the check runs
before any defaulting; and the same holds for
`construct_from_class_definition`. -/
theorem claimC3_structural_error_iff :
    (∀ inputs outputs nodes idArg md mdd ifA obA fresh,
      (SdkWorkflow.construct inputs outputs nodes idArg md mdd ifA obA fresh
        = .error (.flyteAssertion unassignedUpstreamMsg))
      ↔ ∃ n ∈ nodes, ∃ u ∈ n.upstream, u.id = none)
    ∧ (∀ inputs outputs nodes md mdd fresh,
      (PythonWorkflow.constructFromClassDefinition inputs outputs nodes md mdd fresh
        = .error (.flyteAssertion unassignedUpstreamMsg))
      ↔ ∃ n ∈ nodes, ∃ u ∈ n.upstream, u.id = none) := by
  constructor
  · intro inputs outputs nodes idArg md mdd ifA obA fresh
    rw [← upstreamUnassigned_iff]
    by_cases hch : upstreamUnassigned nodes
    · simp [SdkWorkflow.construct, hch]
    · simp only [hch, iff_false]
      cases ifA <;> cases obA <;> cases inputs <;> cases outputs <;>
        simp [SdkWorkflow.construct, hch, Bind.bind, Except.bind]
  · intro inputs outputs nodes md mdd fresh
    rw [← upstreamUnassigned_iff]
    by_cases hch : upstreamUnassigned nodes
    · simp [PythonWorkflow.constructFromClassDefinition, hch]
    · simp [PythonWorkflow.constructFromClassDefinition, SdkWorkflow.construct, hch,
        Bind.bind, Except.bind]

/-- A `≤`-sorted binding list with pairwise-distinct variable names is
`<`-sorted. -/
theorem sorted_lt_of_sorted_le_nodup (l : List Binding)
    (hs : List.Sorted bindingLe l) (hn : (l.map Binding.var).Nodup) :
    List.Sorted bindingLt l := by
  induction l with
  | nil => simp
  | cons a t ih =>
      rw [List.sorted_cons] at hs ⊢
      simp only [List.map_cons, List.nodup_cons] at hn
      refine ⟨fun b hb => ?_, ih hs.2 hn.2⟩
      have hle : a.var ≤ b.var := hs.1 b hb
      have hne : a.var ≠ b.var := fun hEq => hn.1 (hEq ▸ List.mem_map_of_mem Binding.var hb)
      exact lt_of_le_of_ne hle hne

/-- Sorting by variable name is canonical: permuted binding lists with
distinct variable names sort to the same list. -/
theorem insertionSort_eq_of_perm (l1 l2 : List Binding) (hp : l1.Perm l2)
    (hn : (l1.map Binding.var).Nodup) :
    List.insertionSort bindingLe l1 = List.insertionSort bindingLe l2 := by
  have p1 := List.perm_insertionSort bindingLe l1
  have p2 := List.perm_insertionSort bindingLe l2
  have hperm : (List.insertionSort bindingLe l1).Perm (List.insertionSort bindingLe l2) :=
    p1.trans (hp.trans p2.symm)
  have hn1 : ((List.insertionSort bindingLe l1).map Binding.var).Nodup :=
    ((p1.map Binding.var).nodup_iff).mpr hn
  have hn2 : ((List.insertionSort bindingLe l2).map Binding.var).Nodup :=
    ((hperm.map Binding.var).nodup_iff).mp hn1
  exact List.eq_of_perm_of_sorted hperm
    (sorted_lt_of_sorted_le_nodup _ (List.sorted_insertionSort bindingLe l1) hn1)
    (sorted_lt_of_sorted_le_nodup _ (List.sorted_insertionSort bindingLe l2) hn2)

/-- **C9.** Binding resolution is deterministic and canonical: invoking a
workflow as a node on two argument mappings that are permutations of each
other (the same call-time mapping, argument order aside, with distinct
argument names as in a Python kwargs dict) yields identical binding
sequences, and the resulting node's bindings are sorted by variable name. -/
theorem claimC9_call_bindings_canonical (w : SdkWorkflow)
    (m1 m2 : List (String × CallValue)) (hp : m1.Perm m2)
    (hn : (m1.map Prod.fst).Nodup) :
    (w.callAsNode m1).bindings = (w.callAsNode m2).bindings
    ∧ List.Sorted bindingLe (w.callAsNode m1).bindings := by
  have hkeys : ∀ m : List (String × CallValue),
      ((m.map fun kv => (⟨kv.1, kv.2.toBindingData⟩ : Binding)).map Binding.var)
        = m.map Prod.fst := by
    intro m
    rw [List.map_map]
    rfl
  have hinner : List.insertionSort bindingLe
        (m1.map fun kv => (⟨kv.1, kv.2.toBindingData⟩ : Binding))
      = List.insertionSort bindingLe
        (m2.map fun kv => (⟨kv.1, kv.2.toBindingData⟩ : Binding)) := by
    refine insertionSort_eq_of_perm _ _ (hp.map _) ?_
    rw [hkeys m1]
    exact hn
  constructor
  · simp [SdkWorkflow.callAsNode, createBindingsForInputs, SdkNode.bindings, hinner]
  · simp only [SdkWorkflow.callAsNode, createBindingsForInputs, SdkNode.bindings]
    exact List.sorted_insertionSort bindingLe _

/-- Witness for C9: the same two-argument mapping given in both orders. -/
theorem claimC9_call_bindings_canonical_witness :
    (sampleWorkflow.callAsNode callMapBA).bindings
        = (sampleWorkflow.callAsNode callMapAB).bindings
    ∧ List.Sorted bindingLe (sampleWorkflow.callAsNode callMapBA).bindings :=
  claimC9_call_bindings_canonical sampleWorkflow callMapBA callMapAB
    (by unfold callMapBA callMapAB; exact List.Perm.swap _ _ _) (by decide)

/-- Nodes that are not sub-workflow nodes contribute nothing to
`get_sub_workflows` and are skipped. -/
theorem subWorkflowsOfNodes_skip (xs ys : List SdkNode)
    (h : ∀ n ∈ xs, isSubWorkflowNode n = false) :
    subWorkflowsOfNodes (xs ++ ys) = subWorkflowsOfNodes ys := by
  induction xs with
  | nil => simp
  | cons a t ih =>
      have ha := h a (by simp)
      have ht : ∀ n ∈ t, isSubWorkflowNode n = false := fun n hn => h n (by simp [hn])
      cases a with
      | mk i u b e =>
          cases e with
          | taskRef tid => simpa [subWorkflowsOfNodes] using ih ht
          | branchRef => simpa [subWorkflowsOfNodes] using ih ht
          | launchPlanRef r => simpa [subWorkflowsOfNodes] using ih ht
          | subWorkflowRef r hyd =>
              exact absurd ha (by simp [isSubWorkflowNode, SdkNode.ex])

/-- A node list with no sub-workflow nodes yields the empty closure. -/
theorem subWorkflowsOfNodes_none (xs : List SdkNode)
    (h : ∀ n ∈ xs, isSubWorkflowNode n = false) :
    subWorkflowsOfNodes xs = .ok [] := by
  have h0 := subWorkflowsOfNodes_skip xs [] h
  rw [List.append_nil] at h0
  rw [h0]
  rfl

/-- **C6.** `get_sub_workflows` returns the empty sequence on every workflow
with no sub-workflow nodes; and on a workflow whose node list contains (among
arbitrary non-sub-workflow nodes) a node hydrated with workflow `w1`, where
`w1` itself contains a node hydrated with `w2` (again among arbitrary
non-sub-workflow nodes) and `w2` has no sub-workflow nodes, it returns
`[w1, w2]` — depth-first, the parent before its own children's sub-workflows,
task and branch nodes skipped. -/
theorem claimC6_get_sub_workflows :
    (∀ w : SdkWorkflow, (∀ n ∈ w.nodes, isSubWorkflowNode n = false) →
        w.getSubWorkflows = .ok [])
    ∧ (∀ (w2 : SdkWorkflow) (id1 id0 : Identifier) (m1 m0 : WfMeta)
        (d1 d0 : WfMetaDefaults) (i1 i0 : TypedInterface) (o1 o0 : List Binding)
        (u1 u0 : Option (List WfInput)) (a b c d : List SdkNode)
        (nid1 nid0 : Option String) (bs1 bs0 : List Binding)
        (up1 up0 : List SdkNode) (r1 r0 : Identifier),
        (∀ n ∈ w2.nodes, isSubWorkflowNode n = false) →
        (∀ n ∈ a ++ b ++ c ++ d, isSubWorkflowNode n = false) →
        (SdkWorkflow.mk id0 m0 d0 i0
            (c ++ [.mk nid0 up0 bs0 (.subWorkflowRef r0 (some (SdkWorkflow.mk id1 m1 d1 i1
                (a ++ [.mk nid1 up1 bs1 (.subWorkflowRef r1 (some w2))] ++ b) o1 u1)))] ++ d)
            o0 u0).getSubWorkflows
          = .ok [SdkWorkflow.mk id1 m1 d1 i1
              (a ++ [.mk nid1 up1 bs1 (.subWorkflowRef r1 (some w2))] ++ b) o1 u1, w2]) := by
  constructor
  · intro w h
    cases w with
    | mk wi wm wd wf wn wo wu =>
        show subWorkflowsOfNodes wn = .ok []
        exact subWorkflowsOfNodes_none wn h
  · intro w2 id1 id0 m1 m0 d1 d0 i1 i0 o1 o0 u1 u0 a b c d nid1 nid0 bs1 bs0 up1 up0 r1 r0
      hw2 hother
    have hA : ∀ n ∈ a, isSubWorkflowNode n = false := fun n hn => hother n (by simp [hn])
    have hB : ∀ n ∈ b, isSubWorkflowNode n = false := fun n hn => hother n (by simp [hn])
    have hC : ∀ n ∈ c, isSubWorkflowNode n = false := fun n hn => hother n (by simp [hn])
    have hD : ∀ n ∈ d, isSubWorkflowNode n = false := fun n hn => hother n (by simp [hn])
    have hw2sub : subWorkflowsOfNodes w2.nodes = .ok [] := subWorkflowsOfNodes_none _ hw2
    have hw2get : w2.getSubWorkflows = .ok [] := by
      cases w2 with
      | mk wi wm wd wf wn wo wu => exact hw2sub
    have hInner : subWorkflowsOfNodes
        (a ++ [SdkNode.mk nid1 up1 bs1 (.subWorkflowRef r1 (some w2))] ++ b) = .ok [w2] := by
      rw [List.append_assoc, subWorkflowsOfNodes_skip a _ hA]
      simp [subWorkflowsOfNodes, hw2get, subWorkflowsOfNodes_none b hB, Bind.bind, Except.bind]
    have hInner2 := hInner
    rw [List.append_assoc] at hInner2
    have hw1get : (SdkWorkflow.mk id1 m1 d1 i1
        (a ++ SdkNode.mk nid1 up1 bs1 (ExecRef.subWorkflowRef r1 (some w2)) :: b) o1
          u1).getSubWorkflows
        = Except.ok [w2] := hInner2
    show subWorkflowsOfNodes _ = _
    rw [List.append_assoc, subWorkflowsOfNodes_skip c _ hC]
    simp [subWorkflowsOfNodes, subWorkflowsOfNodes_none d hD, Bind.bind, Except.bind, hw1get]

/-- Witness for C6: a two-level nest (with a branch node skipped alongside)
returns `[W1, W2]` in depth-first order, and the leaf returns `[]`. -/
theorem claimC6_get_sub_workflows_witness :
    (leafWorkflow.getSubWorkflows = .ok [])
    ∧ (SdkWorkflow.mk ⟨.workflow, "p", "d", "top", "v"⟩ ⟨none⟩ ⟨none⟩ ⟨[], []⟩
        [SdkNode.mk (some "t0") [] [] .branchRef,
         SdkNode.mk (some "sub0") [] []
           (.subWorkflowRef ⟨.workflow, "p", "d", "mid", "v"⟩
             (some (SdkWorkflow.mk ⟨.workflow, "p", "d", "mid", "v"⟩ ⟨none⟩ ⟨none⟩ ⟨[], []⟩
               [SdkNode.mk (some "sub1") [] []
                 (.subWorkflowRef ⟨.workflow, "p", "d", "leaf", "v"⟩ (some leafWorkflow))]
               [] none)))]
        [] none).getSubWorkflows
      = .ok [SdkWorkflow.mk ⟨.workflow, "p", "d", "mid", "v"⟩ ⟨none⟩ ⟨none⟩ ⟨[], []⟩
          [SdkNode.mk (some "sub1") [] []
            (.subWorkflowRef ⟨.workflow, "p", "d", "leaf", "v"⟩ (some leafWorkflow))]
          [] none, leafWorkflow] :=
  ⟨claimC6_get_sub_workflows.1 leafWorkflow (by decide),
   claimC6_get_sub_workflows.2 leafWorkflow
     ⟨.workflow, "p", "d", "mid", "v"⟩ ⟨.workflow, "p", "d", "top", "v"⟩
     ⟨none⟩ ⟨none⟩ ⟨none⟩ ⟨none⟩ ⟨[], []⟩ ⟨[], []⟩ [] [] none none
     [] [] [SdkNode.mk (some "t0") [] [] .branchRef] []
     (some "sub1") (some "sub0") [] [] [] []
     ⟨.workflow, "p", "d", "leaf", "v"⟩ ⟨.workflow, "p", "d", "mid", "v"⟩
     (by decide) (by decide)⟩

/-- Python dict assignment keeps all existing keys and ensures the assigned
key is present. -/
theorem dictInsert_keys {κ α : Type} [DecidableEq κ] (m : List (κ × α)) (k k' : κ)
    (v : α) (h : k' ∈ m.map Prod.fst ∨ k' = k) :
    k' ∈ (dictInsert m k v).map Prod.fst := by
  unfold dictInsert
  by_cases hany : m.any fun p => p.1 = k
  · simp only [hany, if_true]
    have hkeys : (m.map fun p => if p.1 = k then (k, v) else p).map Prod.fst
        = m.map Prod.fst := by
      rw [List.map_map]
      apply List.map_congr_left
      intro p _
      by_cases hc : p.1 = k <;> simp [hc]
    rw [hkeys]
    rcases h with h | rfl
    · exact h
    · simp only [List.any_eq_true, decide_eq_true_eq] at hany
      obtain ⟨p, hp, hpk⟩ := hany
      exact hpk ▸ List.mem_map_of_mem Prod.fst hp
  · simp only [hany, Bool.false_eq_true, if_false, List.map_append]
    rcases h with h | rfl
    · exact List.mem_append_left _ h
    · simp
/-- Building up a dict retains the keys of the accumulator and gains the keys
of the assigned entries. -/
theorem dictOfListAux_keys {κ α : Type} [DecidableEq κ] :
    ∀ (adds m : List (κ × α)) (k : κ),
      (k ∈ m.map Prod.fst ∨ k ∈ adds.map Prod.fst) →
      k ∈ (dictOfListAux m adds).map Prod.fst := by
  intro adds
  induction adds with
  | nil =>
      intro m k h
      simpa [dictOfListAux] using h.resolve_right (by simp)
  | cons a t ih =>
      intro m k h
      obtain ⟨ka, va⟩ := a
      show k ∈ (dictOfListAux (dictInsert m ka va) t).map Prod.fst
      apply ih
      rcases h with h | h
      · exact Or.inl (dictInsert_keys m ka k va (Or.inl h))
      · simp only [List.map_cons, List.mem_cons] at h
        rcases h with rfl | h
        · exact Or.inl (dictInsert_keys m k k va (Or.inr rfl))
        · exact Or.inr h

/-- The launch-plan constructor rejects any overlap between the fixed-input
names and the default-input names. -/
theorem build_error_of_overlap (wf : PythonWorkflow)
    (defaults : List (String × WfInput)) (fixed : List (String × Nat))
    (iam sa : Option String) (a : String)
    (hfa : a ∈ fixed.map Prod.fst) (hda : a ∈ defaults.map Prod.fst) :
    ∃ e, SdkRunnableLaunchPlan.build wf defaults fixed iam sa = .error e := by
  unfold SdkRunnableLaunchPlan.build
  obtain ⟨kv, hkv, hkva⟩ := List.mem_map.mp hfa
  obtain ⟨dv, hdv, hdva⟩ := List.mem_map.mp hda
  have hpred : (fun kv0 : String × Nat =>
      defaults.any fun dv0 => dv0.1 = kv0.1) kv = true := by
    simp only [List.any_eq_true, decide_eq_true_eq]
    exact ⟨dv, hdv, by rw [hdva, hkva]⟩
  have hsome : (fixed.find? fun kv0 : String × Nat =>
      defaults.any fun dv0 => dv0.1 = kv0.1).isSome :=
    List.find?_isSome.mpr ⟨kv, hkv, hpred⟩
  obtain ⟨kv0, hkv0⟩ := Option.isSome_iff_exists.mp hsome
  rw [hkv0]
  exact ⟨_, rfl⟩

/-- Renaming each default input to its key leaves the key list unchanged. -/
theorem rename_keys (m : List (String × WfInput)) :
    ((m.map fun q => (q.1, { q.2 with name := q.1 })).map Prod.fst) = m.map Prod.fst := by
  rw [List.map_map]
  rfl

/-- **C4.** Building a launch plan whose `fixed_inputs` and caller-supplied
`default_inputs` share a name fails with an error (it is never silently
accepted with one side preferred). -/
theorem claimC4_launch_plan_fixed_default_overlap (pw : PythonWorkflow) (a : String)
    (di : List (String × WfInput)) (fi : List (String × Nat))
    (role iam sa : Option String)
    (hfi : a ∈ fi.map Prod.fst) (hdi : a ∈ di.map Prod.fst) :
    ∃ e, pw.createLaunchPlan (some di) (some fi) role iam sa = .error e := by
  unfold PythonWorkflow.createLaunchPlan
  by_cases hrole : role.isSome ∧ (iam.isSome ∨ sa.isSome)
  · exact ⟨.valueErr "Cannot set both role and auth.", by simp [hrole]⟩
  · simp only [if_neg hrole, Option.getD_some]
    apply build_error_of_overlap _ _ _ _ _ a hfi
    rw [rename_keys]
    exact dictOfListAux_keys di _ a (Or.inr hdi)

/-- Witness for C4 at a concrete workflow and overlapping name `a`. -/
theorem claimC4_launch_plan_fixed_default_overlap_witness :
    ∃ e, samplePythonWorkflow.createLaunchPlan (some [("a", sampleInputA)])
      (some [("a", 1)]) none none none = .error e :=
  claimC4_launch_plan_fixed_default_overlap samplePythonWorkflow "a"
    [("a", sampleInputA)] [("a", 1)] none none none (by decide) (by decide)

/-- If every element maps without error, the fallible map succeeds and relates
inputs to outputs pointwise. -/
theorem exceptMapList_ok {α β : Type} (f : α → Except PyErr β) :
    ∀ l : List α, (∀ x ∈ l, ∃ y, f x = .ok y) →
    ∃ ys, exceptMapList f l = .ok ys ∧ List.Forall₂ (fun x y => f x = .ok y) l ys := by
  intro l
  induction l with
  | nil => exact fun _ => ⟨[], rfl, List.Forall₂.nil⟩
  | cons x xs ih =>
      intro h
      obtain ⟨y, hy⟩ := h x (by simp)
      obtain ⟨ys, hys, hfa⟩ := ih fun z hz => h z (by simp [hz])
      exact ⟨y :: ys, by simp [exceptMapList, hy, hys, Bind.bind, Except.bind],
        List.Forall₂.cons hy hfa⟩

/-- Every output of a successful fallible map comes from some input. -/
theorem exceptMapList_ok_mem {α β : Type} (f : α → Except PyErr β) :
    ∀ (l : List α) (ys : List β), exceptMapList f l = .ok ys →
      ∀ y ∈ ys, ∃ x ∈ l, f x = .ok y := by
  intro l
  induction l with
  | nil =>
      intro ys h y hy
      simp only [exceptMapList] at h
      cases h
      simp at hy
  | cons x xs ih =>
      intro ys h y hy
      simp only [exceptMapList, Bind.bind, Except.bind] at h
      cases hx : f x with
      | error e => rw [hx] at h; cases h
      | ok y0 =>
          rw [hx] at h
          cases hxs : exceptMapList f xs with
          | error e => rw [hxs] at h; cases h
          | ok ys0 =>
              rw [hxs] at h
              cases h
              rcases List.mem_cons.mp hy with rfl | hy'
              · exact ⟨x, by simp, hx⟩
              · obtain ⟨z, hz, hfz⟩ := ih ys0 hxs y hy'
                exact ⟨z, by simp [hz], hfz⟩

/-- Pointwise-related lists have equal images under compatible maps. -/
theorem forall₂_map_eq {α β γ : Type} (R : α → β → Prop) (f : α → γ) (g : β → γ)
    (h : ∀ a b, R a b → g b = f a) :
    ∀ (l : List α) (ys : List β), List.Forall₂ R l ys → ys.map g = l.map f := by
  intro l ys hfa
  induction hfa with
  | nil => rfl
  | cons hr _ ih => simp [ih, h _ _ hr]

/-- Building a dict from entries with fresh, pairwise-distinct keys appends
them in order. -/
theorem dictOfListAux_nodup {κ α : Type} [DecidableEq κ] :
    ∀ (adds acc : List (κ × α)),
      (∀ k ∈ adds.map Prod.fst, k ∉ acc.map Prod.fst) →
      (adds.map Prod.fst).Nodup →
      dictOfListAux acc adds = acc ++ adds := by
  intro adds
  induction adds with
  | nil => intro acc _ _; simp [dictOfListAux]
  | cons a t ih =>
      intro acc hdisj hnodup
      obtain ⟨k, v⟩ := a
      have hknotin : k ∉ acc.map Prod.fst := hdisj k (by simp)
      have hins : dictInsert acc k v = acc ++ [(k, v)] := by
        unfold dictInsert
        have hnone : ¬ acc.any fun p => p.1 = k := by
          simp only [List.any_eq_true, decide_eq_true_eq, not_exists]
          intro p hcontra
          obtain ⟨hp, hpk⟩ := hcontra
          exact absurd (hpk ▸ List.mem_map_of_mem Prod.fst hp) hknotin
        simp [hnone]
      simp only [List.map_cons, List.nodup_cons] at hnodup
      show dictOfListAux (dictInsert acc k v) t = acc ++ (k, v) :: t
      rw [hins, ih (acc ++ [(k, v)]) ?_ hnodup.2]
      · simp
      · intro k' hk'
        simp only [List.map_append, List.mem_append, List.map_cons, List.map_nil,
          List.mem_singleton, not_or]
        refine ⟨hdisj k' (by simp [hk']), ?_⟩
        intro hcontra
        exact hnodup.1 (hcontra ▸ hk')

/-- A key present in a dict's key list can be looked up. -/
theorem dictFind_isSome {κ α : Type} [DecidableEq κ] :
    ∀ (m : List (κ × α)) (k : κ), k ∈ m.map Prod.fst → ∃ v, dictFind m k = some v := by
  intro m
  induction m with
  | nil => simp
  | cons a t ih =>
      intro k hk
      obtain ⟨k', v'⟩ := a
      by_cases hc : k' = k
      · exact ⟨v', by simp [dictFind, hc]⟩
      · have : k ∈ t.map Prod.fst := by
          rcases List.mem_cons.mp hk with h | h
          · exact absurd h.symm hc
          · exact h
        obtain ⟨v, hv⟩ := ih k this
        exact ⟨v, by simp [dictFind, hc, hv]⟩

/-- A successful dict lookup returns an entry of the dict with that key. -/
theorem dictFind_mem {κ α : Type} [DecidableEq κ] :
    ∀ (m : List (κ × α)) (k : κ) (v : α), dictFind m k = some v → (k, v) ∈ m := by
  intro m
  induction m with
  | nil => intro k v h; cases h
  | cons a t ih =>
      intro k v h
      obtain ⟨k', v'⟩ := a
      by_cases hc : k' = k
      · simp only [dictFind, hc, if_true] at h
        cases h
        simp [hc]
      · simp only [dictFind, hc, if_false] at h
        exact List.mem_cons_of_mem _ (ih k v h)

/-- Constructing with every optional argument supplied succeeds exactly on the
upstream-id check. -/
theorem construct_all_given (N : List SdkNode) (idv : Identifier) (md : WfMeta)
    (mdd : WfMetaDefaults) (iface : TypedInterface) (ob : List Binding)
    (fresh : Identifier) (h : upstreamUnassigned N = false) :
    SdkWorkflow.construct none none N (some idv) (some md) (some mdd)
      (some iface) (some ob) fresh = .ok (.mk idv md mdd iface N ob none) := by
  unfold SdkWorkflow.construct
  simp [h, Bind.bind, Except.bind]

/-- Assigning to a key already present leaves the key list unchanged (dict
assignment overwrites in place). -/
theorem dictInsert_keys_of_mem {κ α : Type} [DecidableEq κ] (m : List (κ × α))
    (k : κ) (v : α) (h : k ∈ m.map Prod.fst) :
    (dictInsert m k v).map Prod.fst = m.map Prod.fst := by
  have hany : (m.any fun p => p.1 = k) = true := by
    simp only [List.any_eq_true, decide_eq_true_eq]
    obtain ⟨p, hp, hpk⟩ := List.mem_map.mp h
    exact ⟨p, hp, hpk⟩
  simp only [dictInsert, hany, if_true, List.map_map]
  apply List.map_congr_left
  intro p _
  by_cases hc : p.1 = k <;> simp [hc]

/-- Every entry of a dict after an assignment is an old entry or the assigned
pair. -/
theorem dictInsert_mem_inv {κ α : Type} [DecidableEq κ] (m : List (κ × α))
    (k : κ) (v : α) (kv : κ × α) (h : kv ∈ dictInsert m k v) :
    kv ∈ m ∨ kv = (k, v) := by
  unfold dictInsert at h
  by_cases hany : m.any fun p => p.1 = k
  · simp only [hany, if_true, List.mem_map] at h
    obtain ⟨p, hp, hEq⟩ := h
    by_cases hc : p.1 = k
    · simp only [hc, if_true] at hEq
      exact Or.inr hEq.symm
    · simp only [hc, if_false] at hEq
      exact Or.inl (hEq ▸ hp)
  · simp only [hany, Bool.false_eq_true, if_false, List.mem_append,
      List.mem_singleton] at h
    exact h

/-- Dict assignment inserts the key into the key set. -/
theorem dictInsert_keys_toFinset {κ α : Type} [DecidableEq κ] (m : List (κ × α))
    (k : κ) (v : α) :
    ((dictInsert m k v).map Prod.fst).toFinset
      = insert k (m.map Prod.fst).toFinset := by
  by_cases hmem : k ∈ m.map Prod.fst
  · rw [dictInsert_keys_of_mem m k v hmem,
      Finset.insert_eq_self.mpr (List.mem_toFinset.mpr hmem)]
  · have hany : ¬ (m.any fun p => p.1 = k) = true := by
      simp only [List.any_eq_true, decide_eq_true_eq, not_exists]
      intro p hcontra
      obtain ⟨hp, hpk⟩ := hcontra
      exact hmem (hpk ▸ List.mem_map_of_mem Prod.fst hp)
    simp [dictInsert, hany, Finset.union_comm, Finset.insert_eq]

/-- The key set of a built dict is the union of the accumulator's and the
assigned entries' key sets (duplicates collapse, keys are never dropped). -/
theorem dictOfListAux_keys_toFinset {κ α : Type} [DecidableEq κ] :
    ∀ (adds acc : List (κ × α)),
      ((dictOfListAux acc adds).map Prod.fst).toFinset
        = (acc.map Prod.fst).toFinset ∪ (adds.map Prod.fst).toFinset := by
  intro adds
  induction adds with
  | nil => intro acc; simp [dictOfListAux]
  | cons a t ih =>
      intro acc
      obtain ⟨k, v⟩ := a
      show ((dictOfListAux (dictInsert acc k v) t).map Prod.fst).toFinset = _
      rw [ih (dictInsert acc k v), dictInsert_keys_toFinset]
      simp only [List.map_cons, List.toFinset_cons]
      rw [Finset.insert_union, Finset.union_insert]

/-- Every entry of a built dict comes from the accumulator or the assigned
entries. -/
theorem dictOfListAux_mem_inv {κ α : Type} [DecidableEq κ] :
    ∀ (adds acc : List (κ × α)) (kv : κ × α),
      kv ∈ dictOfListAux acc adds → kv ∈ acc ∨ kv ∈ adds := by
  intro adds
  induction adds with
  | nil => intro acc kv h; exact Or.inl h
  | cons a t ih =>
      intro acc kv h
      obtain ⟨k, v⟩ := a
      rcases ih (dictInsert acc k v) kv h with hin | hin
      · rcases dictInsert_mem_inv acc k v kv hin with hold | rfl
        · exact Or.inl hold
        · exact Or.inr (by simp)
      · exact Or.inr (List.mem_cons_of_mem _ hin)

/-- Recording upstream references keeps the node id. -/
theorem SdkNode.appendUpstream_id (n : SdkNode) (ups : List SdkNode) :
    (n.appendUpstream ups).id = n.id := by
  cases n; rfl

/-- Recording upstream references appends them to the upstream list. -/
theorem SdkNode.appendUpstream_upstream (n : SdkNode) (ups : List SdkNode) :
    (n.appendUpstream ups).upstream = n.upstream ++ ups := by
  cases n; rfl

/-- The wiring loop of `promote_from_model` succeeds and preserves the key
list and the per-entry invariants (entry wire nodes satisfy `P`, each value's
id is its key, every recorded upstream reference has an assigned id), provided
every processed wire node satisfies `P`, `P`-nodes' ids are keys, and
`P`-nodes' serialized upstream ids are keys. -/
theorem exceptFoldList_linkWireNode_ok (K : List (Option String))
    (P : WireNode → Prop)
    (hPkey : ∀ wn, P wn → wn.id ∈ K)
    (hPclosed : ∀ wn, P wn → ∀ uid ∈ wn.upstreamIds, some uid ∈ K) :
    ∀ (ws : List WireNode) (M : List (Option String × (WireNode × SdkNode))),
      (∀ wn ∈ ws, P wn) →
      M.map Prod.fst = K →
      (∀ kv ∈ M, P kv.2.1 ∧ kv.2.2.id = kv.1 ∧ ∀ u ∈ kv.2.2.upstream, u.id ≠ none) →
      ∃ M2, exceptFoldList linkWireNode M ws = .ok M2
        ∧ M2.map Prod.fst = K
        ∧ ∀ kv ∈ M2, P kv.2.1 ∧ kv.2.2.id = kv.1
            ∧ ∀ u ∈ kv.2.2.upstream, u.id ≠ none := by
  intro ws
  induction ws with
  | nil => intro M _ hK hINV; exact ⟨M, rfl, hK, hINV⟩
  | cons wn rest ih =>
      intro M hws hK hINV
      have hkmem : wn.id ∈ M.map Prod.fst := by
        rw [hK]; exact hPkey wn (hws wn (by simp))
      obtain ⟨cur, hcur⟩ := dictFind_isSome M wn.id hkmem
      obtain ⟨hcurP, hcurId, hcurUp⟩ := hINV _ (dictFind_mem M wn.id cur hcur)
      have hball : ∀ uid ∈ cur.1.upstreamIds,
          ∃ y, (match dictFind M (some uid) with
                | some u => Except.ok u.2
                | none =>
                    Except.error (PyErr.systemErr "missing upstream node id"))
            = Except.ok y := by
        intro uid huid
        have hkey : some uid ∈ M.map Prod.fst := by
          rw [hK]; exact hPclosed cur.1 hcurP uid huid
        obtain ⟨u, hu⟩ := dictFind_isSome M (some uid) hkey
        exact ⟨u.2, by simp [hu]⟩
      obtain ⟨ups, hups, _⟩ := exceptMapList_ok _ _ hball
      have hupsProp : ∀ y ∈ ups, y.id ≠ none := by
        intro y hy
        obtain ⟨uid, _, hok⟩ := exceptMapList_ok_mem _ _ _ hups y hy
        cases hfind : dictFind M (some uid) with
        | none => rw [hfind] at hok; cases hok
        | some u =>
            rw [hfind] at hok
            simp only [Except.ok.injEq] at hok
            subst hok
            have hid := (hINV _ (dictFind_mem M (some uid) u hfind)).2.1
            simp [hid]
      have hlink : linkWireNode M wn
          = .ok (dictInsert M wn.id (cur.1, cur.2.appendUpstream ups)) := by
        simp [linkWireNode, hcur, hups, Bind.bind, Except.bind]
      have hK2 : (dictInsert M wn.id (cur.1, cur.2.appendUpstream ups)).map Prod.fst
          = K := by
        rw [dictInsert_keys_of_mem M _ _ hkmem]; exact hK
      have hINV2 : ∀ kv ∈ dictInsert M wn.id (cur.1, cur.2.appendUpstream ups),
          P kv.2.1 ∧ kv.2.2.id = kv.1
            ∧ ∀ u ∈ kv.2.2.upstream, u.id ≠ none := by
        intro kv hkv
        rcases dictInsert_mem_inv M _ _ kv hkv with hold | rfl
        · exact hINV _ hold
        · refine ⟨hcurP, ?_, ?_⟩
          · show (cur.2.appendUpstream ups).id = wn.id
            rw [SdkNode.appendUpstream_id]; exact hcurId
          · intro u hu
            rw [SdkNode.appendUpstream_upstream] at hu
            rcases List.mem_append.mp hu with h1 | h2
            · exact hcurUp u h1
            · exact hupsProp u h2
      obtain ⟨M2, hrun, hKf, hINVf⟩ :=
        ih (dictInsert M wn.id (cur.1, cur.2.appendUpstream ups))
          (fun z hz => hws z (by simp [hz])) hK2 hINV2
      exact ⟨M2, by simp only [exceptFoldList, hlink, Bind.bind, Except.bind, hrun],
        hKf, hINVf⟩

/-- Node promotion preserves the serialized node id. -/
theorem promoteNodeFromModel_id (f : Nat) (subs : List (Identifier × WireTemplate))
    (tasks : List (Identifier × String)) (wn : WireNode) :
    (promoteNodeFromModel f subs tasks wn).id = wn.id := by
  unfold promoteNodeFromModel
  simp [SdkNode.id]

/-- A freshly promoted node carries no upstream references yet (the wiring
loop adds them afterwards). -/
theorem promoteNodeFromModel_upstream (f : Nat)
    (subs : List (Identifier × WireTemplate))
    (tasks : List (Identifier × String)) (wn : WireNode) :
    (promoteNodeFromModel f subs tasks wn).upstream = [] := by
  unfold promoteNodeFromModel
  simp [SdkNode.upstream]

/-- Round trip of the serialized primary template through promotion with
empty lookup tables, for workflows whose node ids avoid the reserved
sentinels and whose upstream references all point at nodes of the workflow.
The promoted node list is the id-keyed node map's value list, so nodes
sharing an id are merged; the node id set survives exactly. -/
theorem promoteTemplate_roundtrip (wid : Identifier) (wm : WfMeta) (wd : WfMetaDefaults)
    (wi : TypedInterface) (wo : List Binding) (N : List SdkNode)
    (ui : Option (List WfInput))
    (hres : ∀ n ∈ N, ¬(n.id = some startNodeId ∨ n.id = some endNodeId))
    (hclosed : ∀ n ∈ N, ∀ u ∈ n.upstream, ∃ m ∈ N, m.id = u.id) :
    ∃ w', SdkWorkflow.promoteFromModel
        (SdkWorkflow.mk wid wm wd wi N wo ui).serializeTemplate [] [] = .ok w'
      ∧ w'.interface = wi ∧ w'.outputs = wo
      ∧ (w'.nodes.map SdkNode.id).toFinset = (N.map SdkNode.id).toFinset
      ∧ w'.userInputs = none := by
  have hfilter : getNonSystemNodes (N.map SdkNode.serialize) = N.map SdkNode.serialize := by
    unfold getNonSystemNodes
    apply List.filter_eq_self.mpr
    intro wn hwn
    obtain ⟨n, hn, rfl⟩ := List.mem_map.mp hwn
    simpa [SdkNode.serialize] using hres n hn
  have hentries : ∀ f : Nat,
      (N.map SdkNode.serialize).map
          (fun wn => (wn.id, (wn, promoteNodeFromModel f [] [] wn)))
        = N.map fun n => (n.id, (n.serialize, promoteNodeFromModel f [] [] n.serialize)) :=
    fun f => by rw [List.map_map]; rfl
  have hEkeys :
      ((N.map fun n =>
          (n.id, (n.serialize, promoteNodeFromModel 1 [] [] n.serialize))).map Prod.fst)
        = N.map SdkNode.id := by
    rw [List.map_map]; rfl
  have hKset :
      ((dictOfListAux [] (N.map fun n =>
          (n.id, (n.serialize, promoteNodeFromModel 1 [] [] n.serialize)))).map
            Prod.fst).toFinset
        = (N.map SdkNode.id).toFinset := by
    rw [dictOfListAux_keys_toFinset, hEkeys]
    simp
  have hPkey : ∀ wn : WireNode, (∃ m ∈ N, wn = m.serialize) →
      wn.id ∈ (dictOfListAux [] (N.map fun n =>
        (n.id, (n.serialize, promoteNodeFromModel 1 [] [] n.serialize)))).map Prod.fst := by
    intro wn hwn
    obtain ⟨m, hm, rfl⟩ := hwn
    apply dictOfListAux_keys
    right
    rw [hEkeys]
    exact List.mem_map_of_mem SdkNode.id hm
  have hPclosed : ∀ wn : WireNode, (∃ m ∈ N, wn = m.serialize) →
      ∀ uid ∈ wn.upstreamIds,
        some uid ∈ (dictOfListAux [] (N.map fun n =>
          (n.id, (n.serialize, promoteNodeFromModel 1 [] [] n.serialize)))).map Prod.fst := by
    intro wn hwn uid huid
    obtain ⟨m, hm, rfl⟩ := hwn
    have huid2 : uid ∈ m.upstream.filterMap SdkNode.id := huid
    obtain ⟨u, hu, huidEq⟩ := List.mem_filterMap.mp huid2
    obtain ⟨m2, hm2, hmid⟩ := hclosed m hm u hu
    apply dictOfListAux_keys
    right
    rw [hEkeys]
    exact (hmid.trans huidEq) ▸ List.mem_map_of_mem SdkNode.id hm2
  have hINV0 : ∀ kv ∈ dictOfListAux [] (N.map fun n =>
        (n.id, (n.serialize, promoteNodeFromModel 1 [] [] n.serialize))),
      (∃ m ∈ N, kv.2.1 = m.serialize) ∧ kv.2.2.id = kv.1
        ∧ ∀ u ∈ kv.2.2.upstream, u.id ≠ none := by
    intro kv hkv
    rcases dictOfListAux_mem_inv _ [] kv hkv with hin | hin
    · cases hin
    · obtain ⟨m, hm, rfl⟩ := List.mem_map.mp hin
      refine ⟨⟨m, hm, rfl⟩, ?_, ?_⟩
      · show (promoteNodeFromModel 1 [] [] m.serialize).id = m.id
        rw [promoteNodeFromModel_id]
        rfl
      · intro u hu
        rw [show (m.id, (m.serialize, promoteNodeFromModel 1 [] [] m.serialize)).2.2
              = promoteNodeFromModel 1 [] [] m.serialize from rfl,
          promoteNodeFromModel_upstream] at hu
        cases hu
  obtain ⟨M2, hrun, hKf, hINVf⟩ :=
    exceptFoldList_linkWireNode_ok _ (fun wn => ∃ m ∈ N, wn = m.serialize)
      hPkey hPclosed (N.map SdkNode.serialize)
      (dictOfListAux [] (N.map fun n =>
        (n.id, (n.serialize, promoteNodeFromModel 1 [] [] n.serialize))))
      (fun wn hwn => by
        obtain ⟨m, hm, rfl⟩ := List.mem_map.mp hwn
        exact ⟨m, hm, rfl⟩)
      rfl hINV0
  have hfalse : upstreamUnassigned (M2.map fun kv => kv.2.2) = false := by
    by_cases hb : upstreamUnassigned (M2.map fun kv => kv.2.2)
    · exfalso
      obtain ⟨y, hy, u, hu, hun⟩ := (upstreamUnassigned_iff _).mp hb
      obtain ⟨kv, hkv, rfl⟩ := List.mem_map.mp hy
      exact (hINVf kv hkv).2.2 u hu hun
    · simpa using hb
  have hids : (((M2.map fun kv => kv.2.2).map SdkNode.id).toFinset :
        Finset (Option String)) = (N.map SdkNode.id).toFinset := by
    rw [List.map_map]
    have h1 : M2.map (SdkNode.id ∘ fun kv => kv.2.2) = M2.map Prod.fst :=
      List.map_congr_left fun kv hkv => (hINVf kv hkv).2.1
    rw [h1, hKf, hKset]
  unfold SdkWorkflow.promoteFromModel promoteTemplateFromModel
  simp only [SdkWorkflow.serializeTemplate, SdkWorkflow.nodes, SdkWorkflow.wfId,
    SdkWorkflow.metadata, SdkWorkflow.metadataDefaults, SdkWorkflow.interface,
    SdkWorkflow.outputs, SdkWorkflow.userInputs, List.length_nil, Nat.zero_add,
    hfilter, hentries 1, hrun, Bind.bind, Except.bind]
  rw [construct_all_given (M2.map fun kv => kv.2.2) wid wm wd wi wo wid hfalse]
  exact ⟨SdkWorkflow.mk wid wm wd wi (M2.map fun kv => kv.2.2) wo none,
    rfl, rfl, rfl, hids, rfl⟩

/-- Inversion of a successful construction with `inputs`/`outputs` given: the
workflow carries exactly the supplied nodes and records the authoring inputs.
-/
theorem construct_ok_shape (I : List WfInput) (O : List OutputObj) (N : List SdkNode)
    (idArg : Option Identifier) (md : Option WfMeta) (mdd : Option WfMetaDefaults)
    (ifA : Option TypedInterface) (obA : Option (List Binding)) (fresh : Identifier)
    (w : SdkWorkflow)
    (h : SdkWorkflow.construct (some I) (some O) N idArg md mdd ifA obA fresh = .ok w) :
    ∃ a b c i ob, w = SdkWorkflow.mk a b c i N ob (some I) := by
  unfold SdkWorkflow.construct at h
  by_cases hch : upstreamUnassigned N
  · simp [hch] at h
  · simp only [hch, Bool.false_eq_true, if_false] at h
    cases ifA <;> cases obA <;>
      simp only [Bind.bind, Except.bind, Except.ok.injEq] at h <;>
      exact ⟨_, _, _, _, _, h.symm⟩

/-- **C5 (counterexample).** A workflow accepted by construction whose single
node carries the reserved id `start-node` does not survive the round trip:
promotion strips the node as a system node, so the promoted node id set is
empty while the original's is not. -/
theorem claimC5_counterexample :
    SdkWorkflow.construct (some []) (some []) [startNamedNode] (some sampleIdentifier)
        none none none none sampleIdentifier = .ok startNamedWorkflow
    ∧ SdkWorkflow.promoteFromModel startNamedWorkflow.serializeTemplate [] []
        = .ok promotedStartNamed
    ∧ startNamedWorkflow.nodes.map SdkNode.id = [some startNodeId]
    ∧ promotedStartNamed.nodes.map SdkNode.id = []
    ∧ ([some startNodeId] : List (Option String)).toFinset
        ≠ ([] : List (Option String)).toFinset := by
  refine ⟨rfl, ?_, rfl, rfl, by simp⟩
  simp [SdkWorkflow.promoteFromModel, promoteTemplateFromModel, startNamedWorkflow,
    promotedStartNamed, SdkWorkflow.serializeTemplate, SdkNode.serialize, startNamedNode,
    getNonSystemNodes, startNodeId, endNodeId, dictOfListAux, exceptFoldList,
    SdkWorkflow.construct, upstreamUnassigned, sampleIdentifier, SdkWorkflow.wfId,
    SdkWorkflow.metadata, SdkWorkflow.metadataDefaults, SdkWorkflow.interface,
    SdkWorkflow.nodes, SdkWorkflow.outputs, SdkNode.id, SdkNode.upstream,
    SdkNode.bindings, SdkNode.ex, ExecRef.toWireTarget, Bind.bind, Except.bind,
    linkWireNode, SdkNode.appendUpstream, dictInsert, dictFind]

/-- **C5 (amended).** For workflows accepted by construction whose node ids
avoid the reserved sentinel ids and whose upstream references all refer to
nodes present in the node list, promoting the serialized primary template
with empty sub-workflow and task tables yields a workflow whose interface,
output bindings, and node id set equal the original's (nodes sharing an id
are merged by the id-keyed node map, leaving the id set unchanged), and
whose authoring-time `_user_inputs` is `None` — the `Input`/`Output` objects
are not reconstructed. -/
theorem claimC5_roundtrip (I : List WfInput) (O : List OutputObj) (N : List SdkNode)
    (idArg : Option Identifier) (md : Option WfMeta) (mdd : Option WfMetaDefaults)
    (ifA : Option TypedInterface) (obA : Option (List Binding)) (fresh : Identifier)
    (w : SdkWorkflow)
    (hok : SdkWorkflow.construct (some I) (some O) N idArg md mdd ifA obA fresh = .ok w)
    (hres : ∀ n ∈ N, ¬(n.id = some startNodeId ∨ n.id = some endNodeId))
    (hclosed : ∀ n ∈ N, ∀ u ∈ n.upstream, ∃ m ∈ N, m.id = u.id) :
    ∃ w', SdkWorkflow.promoteFromModel w.serializeTemplate [] [] = .ok w'
      ∧ w'.interface = w.interface ∧ w'.outputs = w.outputs
      ∧ (w'.nodes.map SdkNode.id).toFinset = (w.nodes.map SdkNode.id).toFinset
      ∧ w'.userInputs = none ∧ w.userInputs = some I := by
  obtain ⟨a, b, c, i, ob, rfl⟩ :=
    construct_ok_shape I O N idArg md mdd ifA obA fresh w hok
  obtain ⟨w', h1, h2, h3, h4, h5⟩ :=
    promoteTemplate_roundtrip a b c i ob N (some I) hres hclosed
  exact ⟨w', h1, h2, h3, h4, h5, rfl⟩

/-- Witness for C5 (amended): a concrete one-node workflow round-trips. -/
theorem claimC5_roundtrip_witness :
    SdkWorkflow.construct (some [xInput]) (some [resultOutput]) [nodeN1]
        (some sampleIdentifier) none none none none sampleIdentifier
      = .ok roundtripSource
    ∧ ∃ w', SdkWorkflow.promoteFromModel roundtripSource.serializeTemplate [] [] = .ok w'
      ∧ w'.interface = roundtripSource.interface
      ∧ w'.outputs = roundtripSource.outputs
      ∧ (w'.nodes.map SdkNode.id).toFinset
          = (roundtripSource.nodes.map SdkNode.id).toFinset
      ∧ w'.userInputs = none ∧ roundtripSource.userInputs = some [xInput] :=
  ⟨rfl, claimC5_roundtrip [xInput] [resultOutput] [nodeN1] (some sampleIdentifier)
    none none none none sampleIdentifier roundtripSource rfl
    (by decide) (by decide)⟩

/-- Unfolding equation of the traversal: empty queue. -/
theorem discoverAux_nil (heap : List ObjVal) (tops : List String) (vis : Finset ℕ)
    (acc : DiscResult) : discoverAux heap tops [] vis acc = .ok (acc, vis) := by
  rw [discoverAux]

/-- Unfolding equation: an already-visited object is skipped. -/
theorem discoverAux_visited (heap : List ObjVal) (tops : List String) (nm : String)
    (oid : Nat) (rest : List (String × Nat)) (vis : Finset ℕ) (acc : DiscResult)
    (h : oid ∈ vis) :
    discoverAux heap tops ((nm, oid) :: rest) vis acc
      = discoverAux heap tops rest vis acc := by
  rw [discoverAux]; simp [h]

/-- Unfolding equation: a fresh node object is collected under its synthesized
name. -/
theorem discoverAux_node (heap : List ObjVal) (tops : List String) (nm : String)
    (oid : Nat) (rest : List (String × Nat)) (vis : Finset ℕ) (acc : DiscResult)
    (hn : HeapNode) (h : oid ∉ vis) (hv : heap[oid]? = some (.nodeObj hn)) :
    discoverAux heap tops ((nm, oid) :: rest) vis acc
      = discoverAux heap tops rest (insert oid vis)
          { acc with nodes := acc.nodes ++ [(nm, oid)] } := by
  rw [discoverAux]; simp only [dif_neg h]
  split <;> simp_all

/-- Unfolding equation: a fresh `Input` at a top-level name is renamed and
collected. -/
theorem discoverAux_input_top (heap : List ObjVal) (tops : List String) (nm : String)
    (oid : Nat) (rest : List (String × Nat)) (vis : Finset ℕ) (acc : DiscResult)
    (d : WfInput) (h : oid ∉ vis) (hv : heap[oid]? = some (.inputObj d)) (ht : nm ∈ tops) :
    discoverAux heap tops ((nm, oid) :: rest) vis acc
      = discoverAux heap tops rest (insert oid vis)
          { acc with inputs := acc.inputs ++ [(nm, oid)] } := by
  rw [discoverAux]; simp only [dif_neg h]
  split <;> simp_all

/-- Unfolding equation: a fresh `Input` below top level raises the placement
error naming its synthesized path. -/
theorem discoverAux_input_nested (heap : List ObjVal) (tops : List String) (nm : String)
    (oid : Nat) (rest : List (String × Nat)) (vis : Finset ℕ) (acc : DiscResult)
    (d : WfInput) (h : oid ∉ vis) (hv : heap[oid]? = some (.inputObj d)) (ht : nm ∉ tops) :
    discoverAux heap tops ((nm, oid) :: rest) vis acc
      = .error (.flyteValue nm inputPlacementMsg) := by
  rw [discoverAux]; simp only [dif_neg h]
  split <;> simp_all

/-- Unfolding equation: a fresh `Output` at a top-level name is renamed and
collected. -/
theorem discoverAux_output_top (heap : List ObjVal) (tops : List String) (nm : String)
    (oid : Nat) (rest : List (String × Nat)) (vis : Finset ℕ) (acc : DiscResult)
    (d : OutputObj) (h : oid ∉ vis) (hv : heap[oid]? = some (.outputObj d)) (ht : nm ∈ tops) :
    discoverAux heap tops ((nm, oid) :: rest) vis acc
      = discoverAux heap tops rest (insert oid vis)
          { acc with outputs := acc.outputs ++ [(nm, oid)] } := by
  rw [discoverAux]; simp only [dif_neg h]
  split <;> simp_all

/-- Unfolding equation: a fresh `Output` below top level raises the placement
error naming its synthesized path. -/
theorem discoverAux_output_nested (heap : List ObjVal) (tops : List String) (nm : String)
    (oid : Nat) (rest : List (String × Nat)) (vis : Finset ℕ) (acc : DiscResult)
    (d : OutputObj) (h : oid ∉ vis) (hv : heap[oid]? = some (.outputObj d)) (ht : nm ∉ tops) :
    discoverAux heap tops ((nm, oid) :: rest) vis acc
      = .error (.flyteValue nm outputPlacementMsg) := by
  rw [discoverAux]; simp only [dif_neg h]
  split <;> simp_all

/-- Unfolding equation: a fresh list/set/tuple enqueues its elements. -/
theorem discoverAux_list (heap : List ObjVal) (tops : List String) (nm : String)
    (oid : Nat) (rest : List (String × Nat)) (vis : Finset ℕ) (acc : DiscResult)
    (elems : List Nat) (h : oid ∉ vis) (hv : heap[oid]? = some (.listObj elems)) :
    discoverAux heap tops ((nm, oid) :: rest) vis acc
      = discoverAux heap tops (rest ++ childEntries nm (.listObj elems))
          (insert oid vis) acc := by
  rw [discoverAux]; simp only [dif_neg h]
  split <;> simp_all

/-- Unfolding equation: a fresh dict enqueues its keys and values. -/
theorem discoverAux_dict (heap : List ObjVal) (tops : List String) (nm : String)
    (oid : Nat) (rest : List (String × Nat)) (vis : Finset ℕ) (acc : DiscResult)
    (entries : List (Nat × Nat)) (h : oid ∉ vis)
    (hv : heap[oid]? = some (.dictObj entries)) :
    discoverAux heap tops ((nm, oid) :: rest) vis acc
      = discoverAux heap tops (rest ++ childEntries nm (.dictObj entries))
          (insert oid vis) acc := by
  rw [discoverAux]; simp only [dif_neg h]
  split <;> simp_all

/-- Unfolding equation: any other object is visited and ignored. -/
theorem discoverAux_other (heap : List ObjVal) (tops : List String) (nm : String)
    (oid : Nat) (rest : List (String × Nat)) (vis : Finset ℕ) (acc : DiscResult)
    (h : oid ∉ vis) (hv : heap[oid]? = some .otherObj) :
    discoverAux heap tops ((nm, oid) :: rest) vis acc
      = discoverAux heap tops rest (insert oid vis) acc := by
  rw [discoverAux]; simp only [dif_neg h]
  split <;> simp_all

/-- Unfolding equation: a dangling address is visited and ignored (does not
occur for well-formed surfaces). -/
theorem discoverAux_none (heap : List ObjVal) (tops : List String) (nm : String)
    (oid : Nat) (rest : List (String × Nat)) (vis : Finset ℕ) (acc : DiscResult)
    (h : oid ∉ vis) (hv : heap[oid]? = none) :
    discoverAux heap tops ((nm, oid) :: rest) vis acc
      = discoverAux heap tops rest (insert oid vis) acc := by
  rw [discoverAux]; simp only [dif_neg h]
  split <;> simp_all

/-- Every synthesized nested name contains a bracket. -/
theorem hasBracket_assignIndexedAttributeName (attr idx : String) :
    hasBracket (assignIndexedAttributeName attr idx) = true := by
  unfold hasBracket assignIndexedAttributeName
  have h1 : (attr ++ "[" ++ idx ++ "]").data
      = attr.data ++ "[".data ++ idx.data ++ "]".data := by
    simp [String.data_append]
  rw [h1]
  rw [List.elem_iff]
  simp

/-- Child queue entries carry bracketed synthesized names. -/
theorem childEntries_bracket (nm : String) (v : ObjVal) :
    ∀ p ∈ childEntries nm v, hasBracket p.1 = true := by
  intro p hp
  cases v with
  | listObj elems =>
      obtain ⟨q, _, rfl⟩ := List.mem_map.mp hp
      exact hasBracket_assignIndexedAttributeName _ _
  | dictObj entries =>
      rcases List.mem_append.mp hp with h | h <;>
        · obtain ⟨q, _, rfl⟩ := List.mem_map.mp h
          exact hasBracket_assignIndexedAttributeName _ _
  | nodeObj hn => simp [childEntries] at hp
  | inputObj d => simp [childEntries] at hp
  | outputObj d => simp [childEntries] at hp
  | otherObj => simp [childEntries] at hp

/-- Every child address of a container value appears in its queue entries. -/
theorem childEntries_snd (nm : String) (v : ObjVal) :
    ∀ z ∈ childIds v, ∃ nm2, (nm2, z) ∈ childEntries nm v := by
  intro z hz
  cases v with
  | listObj elems =>
      simp only [childIds] at hz
      obtain ⟨i, hi, hget⟩ := List.mem_iff_getElem.mp hz
      refine ⟨assignIndexedAttributeName nm (toString i), ?_⟩
      apply List.mem_map.mpr
      refine ⟨(i, z), ?_, rfl⟩
      rw [List.mk_mem_enum_iff_getElem?, List.getElem?_eq_getElem hi, hget]
  | dictObj entries =>
      simp only [childIds] at hz
      rcases List.mem_append.mp hz with h | h
      · obtain ⟨p, hp, rfl⟩ := List.mem_map.mp h
        exact ⟨assignIndexedAttributeName nm (toString p.1),
          List.mem_append_left _ (List.mem_map_of_mem _ hp)⟩
      · obtain ⟨p, hp, rfl⟩ := List.mem_map.mp h
        exact ⟨assignIndexedAttributeName nm (toString p.1),
          List.mem_append_right _ (List.mem_map_of_mem _ hp)⟩
  | nodeObj hn => simp [childIds] at hz
  | inputObj d => simp [childIds] at hz
  | outputObj d => simp [childIds] at hz
  | otherObj => simp [childIds] at hz

/-- The visited set only grows during the traversal. -/
theorem discoverAux_vis_mono (heap : List ObjVal) (tops : List String) :
    ∀ (q : List (String × Nat)) (vis : Finset ℕ) (acc : DiscResult) (r : DiscResult)
      (vf : Finset ℕ), discoverAux heap tops q vis acc = .ok (r, vf) → vis ⊆ vf := by
  intro q vis acc
  induction q, vis, acc using discoverAux.induct heap tops with
  | case1 vis acc =>
      intro r vf h
      rw [discoverAux_nil] at h
      cases h
      rfl
  | case2 nm oid rest vis acc hvis ih =>
      intro r vf h
      rw [discoverAux_visited _ _ _ _ _ _ _ hvis] at h
      exact ih r vf h
  | case3 nm oid rest vis acc hvis hn hv ih =>
      intro r vf h
      rw [discoverAux_node _ _ _ _ _ _ _ _ hvis hv] at h
      exact (Finset.subset_insert oid vis).trans (ih r vf h)
  | case4 nm oid rest vis acc hvis d hv ht ih =>
      intro r vf h
      rw [discoverAux_input_top _ _ _ _ _ _ _ _ hvis hv ht] at h
      exact (Finset.subset_insert oid vis).trans (ih r vf h)
  | case5 nm oid rest vis acc hvis d hv ht =>
      intro r vf h
      rw [discoverAux_input_nested _ _ _ _ _ _ _ _ hvis hv ht] at h
      cases h
  | case6 nm oid rest vis acc hvis d hv ht ih =>
      intro r vf h
      rw [discoverAux_output_top _ _ _ _ _ _ _ _ hvis hv ht] at h
      exact (Finset.subset_insert oid vis).trans (ih r vf h)
  | case7 nm oid rest vis acc hvis d hv ht =>
      intro r vf h
      rw [discoverAux_output_nested _ _ _ _ _ _ _ _ hvis hv ht] at h
      cases h
  | case8 nm oid rest vis acc hvis elems hv ih =>
      intro r vf h
      rw [discoverAux_list _ _ _ _ _ _ _ _ hvis hv] at h
      exact (Finset.subset_insert oid vis).trans (ih r vf h)
  | case9 nm oid rest vis acc hvis entries hv ih =>
      intro r vf h
      rw [discoverAux_dict _ _ _ _ _ _ _ _ hvis hv] at h
      exact (Finset.subset_insert oid vis).trans (ih r vf h)
  | case10 nm oid rest vis acc hvis hv ih =>
      intro r vf h
      rw [discoverAux_other _ _ _ _ _ _ _ hvis hv] at h
      exact (Finset.subset_insert oid vis).trans (ih r vf h)
  | case11 nm oid rest vis acc hvis hv ih =>
      intro r vf h
      rw [discoverAux_none _ _ _ _ _ _ _ hvis hv] at h
      exact (Finset.subset_insert oid vis).trans (ih r vf h)

/-- Every queued address ends up visited when the traversal completes. -/
theorem discoverAux_processed (heap : List ObjVal) (tops : List String) :
    ∀ (q : List (String × Nat)) (vis : Finset ℕ) (acc : DiscResult) (r : DiscResult)
      (vf : Finset ℕ), discoverAux heap tops q vis acc = .ok (r, vf) →
      ∀ p ∈ q, p.2 ∈ vf := by
  intro q vis acc
  induction q, vis, acc using discoverAux.induct heap tops with
  | case1 vis acc =>
      intro r vf h p hp
      simp at hp
  | case2 nm oid rest vis acc hvis ih =>
      intro r vf h p hp
      rw [discoverAux_visited _ _ _ _ _ _ _ hvis] at h
      rcases List.mem_cons.mp hp with rfl | hp'
      · exact discoverAux_vis_mono heap tops _ _ _ _ _ h hvis
      · exact ih r vf h p hp'
  | case3 nm oid rest vis acc hvis hn hv ih =>
      intro r vf h p hp
      rw [discoverAux_node _ _ _ _ _ _ _ _ hvis hv] at h
      rcases List.mem_cons.mp hp with rfl | hp'
      · exact discoverAux_vis_mono heap tops _ _ _ _ _ h (Finset.mem_insert_self _ _)
      · exact ih r vf h p hp'
  | case4 nm oid rest vis acc hvis d hv ht ih =>
      intro r vf h p hp
      rw [discoverAux_input_top _ _ _ _ _ _ _ _ hvis hv ht] at h
      rcases List.mem_cons.mp hp with rfl | hp'
      · exact discoverAux_vis_mono heap tops _ _ _ _ _ h (Finset.mem_insert_self _ _)
      · exact ih r vf h p hp'
  | case5 nm oid rest vis acc hvis d hv ht =>
      intro r vf h p hp
      rw [discoverAux_input_nested _ _ _ _ _ _ _ _ hvis hv ht] at h
      cases h
  | case6 nm oid rest vis acc hvis d hv ht ih =>
      intro r vf h p hp
      rw [discoverAux_output_top _ _ _ _ _ _ _ _ hvis hv ht] at h
      rcases List.mem_cons.mp hp with rfl | hp'
      · exact discoverAux_vis_mono heap tops _ _ _ _ _ h (Finset.mem_insert_self _ _)
      · exact ih r vf h p hp'
  | case7 nm oid rest vis acc hvis d hv ht =>
      intro r vf h p hp
      rw [discoverAux_output_nested _ _ _ _ _ _ _ _ hvis hv ht] at h
      cases h
  | case8 nm oid rest vis acc hvis elems hv ih =>
      intro r vf h p hp
      rw [discoverAux_list _ _ _ _ _ _ _ _ hvis hv] at h
      rcases List.mem_cons.mp hp with rfl | hp'
      · exact discoverAux_vis_mono heap tops _ _ _ _ _ h (Finset.mem_insert_self _ _)
      · exact ih r vf h p (List.mem_append_left _ hp')
  | case9 nm oid rest vis acc hvis entries hv ih =>
      intro r vf h p hp
      rw [discoverAux_dict _ _ _ _ _ _ _ _ hvis hv] at h
      rcases List.mem_cons.mp hp with rfl | hp'
      · exact discoverAux_vis_mono heap tops _ _ _ _ _ h (Finset.mem_insert_self _ _)
      · exact ih r vf h p (List.mem_append_left _ hp')
  | case10 nm oid rest vis acc hvis hv ih =>
      intro r vf h p hp
      rw [discoverAux_other _ _ _ _ _ _ _ hvis hv] at h
      rcases List.mem_cons.mp hp with rfl | hp'
      · exact discoverAux_vis_mono heap tops _ _ _ _ _ h (Finset.mem_insert_self _ _)
      · exact ih r vf h p hp'
  | case11 nm oid rest vis acc hvis hv ih =>
      intro r vf h p hp
      rw [discoverAux_none _ _ _ _ _ _ _ hvis hv] at h
      rcases List.mem_cons.mp hp with rfl | hp'
      · exact discoverAux_vis_mono heap tops _ _ _ _ _ h (Finset.mem_insert_self _ _)
      · exact ih r vf h p hp'

/-- Collected entries are never removed: the final result extends the
accumulator. -/
theorem discoverAux_acc_mono (heap : List ObjVal) (tops : List String) :
    ∀ (q : List (String × Nat)) (vis : Finset ℕ) (acc : DiscResult) (r : DiscResult)
      (vf : Finset ℕ), discoverAux heap tops q vis acc = .ok (r, vf) →
      (∀ p ∈ acc.inputs, p ∈ r.inputs) ∧ (∀ p ∈ acc.outputs, p ∈ r.outputs)
        ∧ (∀ p ∈ acc.nodes, p ∈ r.nodes) := by
  intro q vis acc
  induction q, vis, acc using discoverAux.induct heap tops with
  | case1 vis acc =>
      intro r vf h
      rw [discoverAux_nil] at h
      cases h
      exact ⟨fun p hp => hp, fun p hp => hp, fun p hp => hp⟩
  | case2 nm oid rest vis acc hvis ih =>
      intro r vf h
      rw [discoverAux_visited _ _ _ _ _ _ _ hvis] at h
      exact ih r vf h
  | case3 nm oid rest vis acc hvis hn hv ih =>
      intro r vf h
      rw [discoverAux_node _ _ _ _ _ _ _ _ hvis hv] at h
      obtain ⟨h1, h2, h3⟩ := ih r vf h
      exact ⟨h1, h2, fun p hp => h3 p (List.mem_append_left _ hp)⟩
  | case4 nm oid rest vis acc hvis d hv ht ih =>
      intro r vf h
      rw [discoverAux_input_top _ _ _ _ _ _ _ _ hvis hv ht] at h
      obtain ⟨h1, h2, h3⟩ := ih r vf h
      exact ⟨fun p hp => h1 p (List.mem_append_left _ hp), h2, h3⟩
  | case5 nm oid rest vis acc hvis d hv ht =>
      intro r vf h
      rw [discoverAux_input_nested _ _ _ _ _ _ _ _ hvis hv ht] at h
      cases h
  | case6 nm oid rest vis acc hvis d hv ht ih =>
      intro r vf h
      rw [discoverAux_output_top _ _ _ _ _ _ _ _ hvis hv ht] at h
      obtain ⟨h1, h2, h3⟩ := ih r vf h
      exact ⟨h1, fun p hp => h2 p (List.mem_append_left _ hp), h3⟩
  | case7 nm oid rest vis acc hvis d hv ht =>
      intro r vf h
      rw [discoverAux_output_nested _ _ _ _ _ _ _ _ hvis hv ht] at h
      cases h
  | case8 nm oid rest vis acc hvis elems hv ih =>
      intro r vf h
      rw [discoverAux_list _ _ _ _ _ _ _ _ hvis hv] at h
      exact ih r vf h
  | case9 nm oid rest vis acc hvis entries hv ih =>
      intro r vf h
      rw [discoverAux_dict _ _ _ _ _ _ _ _ hvis hv] at h
      exact ih r vf h
  | case10 nm oid rest vis acc hvis hv ih =>
      intro r vf h
      rw [discoverAux_other _ _ _ _ _ _ _ hvis hv] at h
      exact ih r vf h
  | case11 nm oid rest vis acc hvis hv ih =>
      intro r vf h
      rw [discoverAux_none _ _ _ _ _ _ _ hvis hv] at h
      exact ih r vf h

/-- Containers first visited during the traversal get all their children
visited by the end. -/
theorem discoverAux_closure (heap : List ObjVal) (tops : List String) :
    ∀ (q : List (String × Nat)) (vis : Finset ℕ) (acc : DiscResult) (r : DiscResult)
      (vf : Finset ℕ), discoverAux heap tops q vis acc = .ok (r, vf) →
      ∀ cid v, cid ∈ vf → cid ∉ vis → heap[cid]? = some v →
        ∀ z ∈ childIds v, z ∈ vf := by
  intro q vis acc
  induction q, vis, acc using discoverAux.induct heap tops with
  | case1 vis acc =>
      intro r vf h cid v hcvf hcvis hcv z hz
      rw [discoverAux_nil] at h
      cases h
      exact absurd hcvf hcvis
  | case2 nm oid rest vis acc hvis ih =>
      intro r vf h cid v hcvf hcvis hcv z hz
      rw [discoverAux_visited _ _ _ _ _ _ _ hvis] at h
      exact ih r vf h cid v hcvf hcvis hcv z hz
  | case3 nm oid rest vis acc hvis hn hv ih =>
      intro r vf h cid v hcvf hcvis hcv z hz
      rw [discoverAux_node _ _ _ _ _ _ _ _ hvis hv] at h
      by_cases hco : cid = oid
      · subst hco
        rw [hcv] at hv
        cases hv
        simp [childIds] at hz
      · exact ih r vf h cid v hcvf (by simp [Finset.mem_insert, hco, hcvis]) hcv z hz
  | case4 nm oid rest vis acc hvis d hv ht ih =>
      intro r vf h cid v hcvf hcvis hcv z hz
      rw [discoverAux_input_top _ _ _ _ _ _ _ _ hvis hv ht] at h
      by_cases hco : cid = oid
      · subst hco
        rw [hcv] at hv
        cases hv
        simp [childIds] at hz
      · exact ih r vf h cid v hcvf (by simp [Finset.mem_insert, hco, hcvis]) hcv z hz
  | case5 nm oid rest vis acc hvis d hv ht =>
      intro r vf h cid v hcvf hcvis hcv z hz
      rw [discoverAux_input_nested _ _ _ _ _ _ _ _ hvis hv ht] at h
      cases h
  | case6 nm oid rest vis acc hvis d hv ht ih =>
      intro r vf h cid v hcvf hcvis hcv z hz
      rw [discoverAux_output_top _ _ _ _ _ _ _ _ hvis hv ht] at h
      by_cases hco : cid = oid
      · subst hco
        rw [hcv] at hv
        cases hv
        simp [childIds] at hz
      · exact ih r vf h cid v hcvf (by simp [Finset.mem_insert, hco, hcvis]) hcv z hz
  | case7 nm oid rest vis acc hvis d hv ht =>
      intro r vf h cid v hcvf hcvis hcv z hz
      rw [discoverAux_output_nested _ _ _ _ _ _ _ _ hvis hv ht] at h
      cases h
  | case8 nm oid rest vis acc hvis elems hv ih =>
      intro r vf h cid v hcvf hcvis hcv z hz
      rw [discoverAux_list _ _ _ _ _ _ _ _ hvis hv] at h
      by_cases hco : cid = oid
      · subst hco
        rw [hcv] at hv
        cases hv
        obtain ⟨nm2, hmem⟩ := childEntries_snd nm (.listObj elems) z hz
        exact discoverAux_processed heap tops _ _ _ _ _ h (nm2, z)
          (List.mem_append_right _ hmem)
      · exact ih r vf h cid v hcvf (by simp [Finset.mem_insert, hco, hcvis]) hcv z hz
  | case9 nm oid rest vis acc hvis entries hv ih =>
      intro r vf h cid v hcvf hcvis hcv z hz
      rw [discoverAux_dict _ _ _ _ _ _ _ _ hvis hv] at h
      by_cases hco : cid = oid
      · subst hco
        rw [hcv] at hv
        cases hv
        obtain ⟨nm2, hmem⟩ := childEntries_snd nm (.dictObj entries) z hz
        exact discoverAux_processed heap tops _ _ _ _ _ h (nm2, z)
          (List.mem_append_right _ hmem)
      · exact ih r vf h cid v hcvf (by simp [Finset.mem_insert, hco, hcvis]) hcv z hz
  | case10 nm oid rest vis acc hvis hv ih =>
      intro r vf h cid v hcvf hcvis hcv z hz
      rw [discoverAux_other _ _ _ _ _ _ _ hvis hv] at h
      by_cases hco : cid = oid
      · subst hco
        rw [hcv] at hv
        cases hv
        simp [childIds] at hz
      · exact ih r vf h cid v hcvf (by simp [Finset.mem_insert, hco, hcvis]) hcv z hz
  | case11 nm oid rest vis acc hvis hv ih =>
      intro r vf h cid v hcvf hcvis hcv z hz
      rw [discoverAux_none _ _ _ _ _ _ _ hvis hv] at h
      by_cases hco : cid = oid
      · subst hco
        rw [hcv] at hv
        cases hv
      · exact ih r vf h cid v hcvf (by simp [Finset.mem_insert, hco, hcvis]) hcv z hz

/-- An `Input`/`Output` object first visited during a completed traversal was
dequeued from an entry already in the queue whose name is a top-level
attribute name, and it was collected under that name.  (Entries enqueued
later by containers carry bracketed names, which cannot be top-level when
top-level names are bracket-free, and dequeuing an entity under such a name
raises instead of completing.) -/
theorem discoverAux_io_entry (heap : List ObjVal) (tops : List String)
    (htops : ∀ t ∈ tops, hasBracket t = false) :
    ∀ (q : List (String × Nat)) (vis : Finset ℕ) (acc : DiscResult) (r : DiscResult)
      (vf : Finset ℕ), discoverAux heap tops q vis acc = .ok (r, vf) →
      ∀ z, z ∈ vf → z ∉ vis → isEntityIO heap z →
      ∃ nm, (nm, z) ∈ q ∧ nm ∈ tops ∧ (nm, z) ∈ r.inputs ++ r.outputs := by
  intro q vis acc
  induction q, vis, acc using discoverAux.induct heap tops with
  | case1 vis acc =>
      intro r vf h z hzvf hzvis hio
      rw [discoverAux_nil] at h
      cases h
      exact absurd hzvf hzvis
  | case2 nm oid rest vis acc hvis ih =>
      intro r vf h z hzvf hzvis hio
      rw [discoverAux_visited _ _ _ _ _ _ _ hvis] at h
      obtain ⟨nm2, hq, htp, hcoll⟩ := ih r vf h z hzvf hzvis hio
      exact ⟨nm2, List.mem_cons_of_mem _ hq, htp, hcoll⟩
  | case3 nm oid rest vis acc hvis hn hv ih =>
      intro r vf h z hzvf hzvis hio
      rw [discoverAux_node _ _ _ _ _ _ _ _ hvis hv] at h
      by_cases hzo : z = oid
      · exfalso
        subst hzo
        rcases hio with ⟨d2, hd⟩ | ⟨d2, hd⟩ <;> (rw [hd] at hv; simp at hv)
      · obtain ⟨nm2, hq, htp, hcoll⟩ := ih r vf h z hzvf
          (by simp [Finset.mem_insert, hzo, hzvis]) hio
        exact ⟨nm2, List.mem_cons_of_mem _ hq, htp, hcoll⟩
  | case4 nm oid rest vis acc hvis d hv ht ih =>
      intro r vf h z hzvf hzvis hio
      rw [discoverAux_input_top _ _ _ _ _ _ _ _ hvis hv ht] at h
      by_cases hzo : z = oid
      · subst hzo
        refine ⟨nm, List.mem_cons_self _ _, ht, List.mem_append_left _ ?_⟩
        exact (discoverAux_acc_mono heap tops _ _ _ _ _ h).1 (nm, z) (by simp)
      · obtain ⟨nm2, hq, htp, hcoll⟩ := ih r vf h z hzvf
          (by simp [Finset.mem_insert, hzo, hzvis]) hio
        exact ⟨nm2, List.mem_cons_of_mem _ hq, htp, hcoll⟩
  | case5 nm oid rest vis acc hvis d hv ht =>
      intro r vf h z hzvf hzvis hio
      rw [discoverAux_input_nested _ _ _ _ _ _ _ _ hvis hv ht] at h
      cases h
  | case6 nm oid rest vis acc hvis d hv ht ih =>
      intro r vf h z hzvf hzvis hio
      rw [discoverAux_output_top _ _ _ _ _ _ _ _ hvis hv ht] at h
      by_cases hzo : z = oid
      · subst hzo
        refine ⟨nm, List.mem_cons_self _ _, ht, List.mem_append_right _ ?_⟩
        exact (discoverAux_acc_mono heap tops _ _ _ _ _ h).2.1 (nm, z) (by simp)
      · obtain ⟨nm2, hq, htp, hcoll⟩ := ih r vf h z hzvf
          (by simp [Finset.mem_insert, hzo, hzvis]) hio
        exact ⟨nm2, List.mem_cons_of_mem _ hq, htp, hcoll⟩
  | case7 nm oid rest vis acc hvis d hv ht =>
      intro r vf h z hzvf hzvis hio
      rw [discoverAux_output_nested _ _ _ _ _ _ _ _ hvis hv ht] at h
      cases h
  | case8 nm oid rest vis acc hvis elems hv ih =>
      intro r vf h z hzvf hzvis hio
      rw [discoverAux_list _ _ _ _ _ _ _ _ hvis hv] at h
      by_cases hzo : z = oid
      · exfalso
        subst hzo
        rcases hio with ⟨d2, hd⟩ | ⟨d2, hd⟩ <;> (rw [hd] at hv; simp at hv)
      · obtain ⟨nm2, hq, htp, hcoll⟩ := ih r vf h z hzvf
          (by simp [Finset.mem_insert, hzo, hzvis]) hio
        rcases List.mem_append.mp hq with hq' | hq'
        · exact ⟨nm2, List.mem_cons_of_mem _ hq', htp, hcoll⟩
        · exfalso
          have hb := childEntries_bracket nm _ _ hq'
          rw [htops nm2 htp] at hb
          cases hb
  | case9 nm oid rest vis acc hvis entries hv ih =>
      intro r vf h z hzvf hzvis hio
      rw [discoverAux_dict _ _ _ _ _ _ _ _ hvis hv] at h
      by_cases hzo : z = oid
      · exfalso
        subst hzo
        rcases hio with ⟨d2, hd⟩ | ⟨d2, hd⟩ <;> (rw [hd] at hv; simp at hv)
      · obtain ⟨nm2, hq, htp, hcoll⟩ := ih r vf h z hzvf
          (by simp [Finset.mem_insert, hzo, hzvis]) hio
        rcases List.mem_append.mp hq with hq' | hq'
        · exact ⟨nm2, List.mem_cons_of_mem _ hq', htp, hcoll⟩
        · exfalso
          have hb := childEntries_bracket nm _ _ hq'
          rw [htops nm2 htp] at hb
          cases hb
  | case10 nm oid rest vis acc hvis hv ih =>
      intro r vf h z hzvf hzvis hio
      rw [discoverAux_other _ _ _ _ _ _ _ hvis hv] at h
      by_cases hzo : z = oid
      · exfalso
        subst hzo
        rcases hio with ⟨d2, hd⟩ | ⟨d2, hd⟩ <;> (rw [hd] at hv; simp at hv)
      · obtain ⟨nm2, hq, htp, hcoll⟩ := ih r vf h z hzvf
          (by simp [Finset.mem_insert, hzo, hzvis]) hio
        exact ⟨nm2, List.mem_cons_of_mem _ hq, htp, hcoll⟩
  | case11 nm oid rest vis acc hvis hv ih =>
      intro r vf h z hzvf hzvis hio
      rw [discoverAux_none _ _ _ _ _ _ _ hvis hv] at h
      by_cases hzo : z = oid
      · exfalso
        subst hzo
        rcases hio with ⟨d2, hd⟩ | ⟨d2, hd⟩ <;> (rw [hd] at hv; simp at hv)
      · obtain ⟨nm2, hq, htp, hcoll⟩ := ih r vf h z hzvf
          (by simp [Finset.mem_insert, hzo, hzvis]) hio
        exact ⟨nm2, List.mem_cons_of_mem _ hq, htp, hcoll⟩

/-- Every collected `Input`/`Output` entry comes from the given entry list `E`
when every queue entry is from `E` or bracket-named, top-level names are
bracket-free, and the accumulator already satisfies it. -/
theorem discoverAux_collected_sound (heap : List ObjVal) (tops : List String)
    (E : List (String × Nat)) (htops : ∀ t ∈ tops, hasBracket t = false) :
    ∀ (q : List (String × Nat)) (vis : Finset ℕ) (acc : DiscResult) (r : DiscResult)
      (vf : Finset ℕ), discoverAux heap tops q vis acc = .ok (r, vf) →
      (∀ p ∈ q, p ∈ E ∨ hasBracket p.1 = true) →
      (∀ p ∈ acc.inputs ++ acc.outputs, p ∈ E) →
      ∀ p ∈ r.inputs ++ r.outputs, p ∈ E := by
  intro q vis acc
  induction q, vis, acc using discoverAux.induct heap tops with
  | case1 vis acc =>
      intro r vf h hq hacc p hp
      rw [discoverAux_nil] at h
      cases h
      exact hacc p hp
  | case2 nm oid rest vis acc hvis ih =>
      intro r vf h hq hacc p hp
      rw [discoverAux_visited _ _ _ _ _ _ _ hvis] at h
      exact ih r vf h (fun p2 hp2 => hq p2 (List.mem_cons_of_mem _ hp2)) hacc p hp
  | case3 nm oid rest vis acc hvis hn hv ih =>
      intro r vf h hq hacc p hp
      rw [discoverAux_node _ _ _ _ _ _ _ _ hvis hv] at h
      exact ih r vf h (fun p2 hp2 => hq p2 (List.mem_cons_of_mem _ hp2)) hacc p hp
  | case4 nm oid rest vis acc hvis d hv ht ih =>
      intro r vf h hq hacc p hp
      rw [discoverAux_input_top _ _ _ _ _ _ _ _ hvis hv ht] at h
      refine ih r vf h (fun p2 hp2 => hq p2 (List.mem_cons_of_mem _ hp2)) ?_ p hp
      intro p2 hp2
      simp only [List.mem_append, List.mem_singleton] at hp2
      rcases hp2 with (hp2 | rfl) | hp2
      · exact hacc p2 (List.mem_append_left _ hp2)
      · have := hq (nm, oid) (List.mem_cons_self _ _)
        rcases this with hE | hb
        · exact hE
        · rw [htops nm ht] at hb
          cases hb
      · exact hacc p2 (List.mem_append_right _ hp2)
  | case5 nm oid rest vis acc hvis d hv ht =>
      intro r vf h hq hacc p hp
      rw [discoverAux_input_nested _ _ _ _ _ _ _ _ hvis hv ht] at h
      cases h
  | case6 nm oid rest vis acc hvis d hv ht ih =>
      intro r vf h hq hacc p hp
      rw [discoverAux_output_top _ _ _ _ _ _ _ _ hvis hv ht] at h
      refine ih r vf h (fun p2 hp2 => hq p2 (List.mem_cons_of_mem _ hp2)) ?_ p hp
      intro p2 hp2
      simp only [List.mem_append, List.mem_singleton] at hp2
      rcases hp2 with hp2 | (hp2 | rfl)
      · exact hacc p2 (List.mem_append_left _ hp2)
      · exact hacc p2 (List.mem_append_right _ hp2)
      · have := hq (nm, oid) (List.mem_cons_self _ _)
        rcases this with hE | hb
        · exact hE
        · rw [htops nm ht] at hb
          cases hb
  | case7 nm oid rest vis acc hvis d hv ht =>
      intro r vf h hq hacc p hp
      rw [discoverAux_output_nested _ _ _ _ _ _ _ _ hvis hv ht] at h
      cases h
  | case8 nm oid rest vis acc hvis elems hv ih =>
      intro r vf h hq hacc p hp
      rw [discoverAux_list _ _ _ _ _ _ _ _ hvis hv] at h
      refine ih r vf h ?_ hacc p hp
      intro p2 hp2
      rcases List.mem_append.mp hp2 with hp2 | hp2
      · exact hq p2 (List.mem_cons_of_mem _ hp2)
      · exact Or.inr (childEntries_bracket nm _ _ hp2)
  | case9 nm oid rest vis acc hvis entries hv ih =>
      intro r vf h hq hacc p hp
      rw [discoverAux_dict _ _ _ _ _ _ _ _ hvis hv] at h
      refine ih r vf h ?_ hacc p hp
      intro p2 hp2
      rcases List.mem_append.mp hp2 with hp2 | hp2
      · exact hq p2 (List.mem_cons_of_mem _ hp2)
      · exact Or.inr (childEntries_bracket nm _ _ hp2)
  | case10 nm oid rest vis acc hvis hv ih =>
      intro r vf h hq hacc p hp
      rw [discoverAux_other _ _ _ _ _ _ _ hvis hv] at h
      exact ih r vf h (fun p2 hp2 => hq p2 (List.mem_cons_of_mem _ hp2)) hacc p hp
  | case11 nm oid rest vis acc hvis hv ih =>
      intro r vf h hq hacc p hp
      rw [discoverAux_none _ _ _ _ _ _ _ hvis hv] at h
      exact ih r vf h (fun p2 hp2 => hq p2 (List.mem_cons_of_mem _ hp2)) hacc p hp

/-- A traversal failure is always a placement error whose attribute path is
bracketed (nested), given bracket-free top-level names and queue entries that
are top-level-named or bracketed. -/
theorem discoverAux_error_name (heap : List ObjVal) (tops : List String)
    (htops : ∀ t ∈ tops, hasBracket t = false) :
    ∀ (q : List (String × Nat)) (vis : Finset ℕ) (acc : DiscResult) (e : PyErr),
      discoverAux heap tops q vis acc = .error e →
      (∀ p ∈ q, p.1 ∈ tops ∨ hasBracket p.1 = true) →
      ∃ a m, e = .flyteValue a m ∧ hasBracket a = true := by
  intro q vis acc
  induction q, vis, acc using discoverAux.induct heap tops with
  | case1 vis acc =>
      intro e h hq
      rw [discoverAux_nil] at h
      cases h
  | case2 nm oid rest vis acc hvis ih =>
      intro e h hq
      rw [discoverAux_visited _ _ _ _ _ _ _ hvis] at h
      exact ih e h fun p2 hp2 => hq p2 (List.mem_cons_of_mem _ hp2)
  | case3 nm oid rest vis acc hvis hn hv ih =>
      intro e h hq
      rw [discoverAux_node _ _ _ _ _ _ _ _ hvis hv] at h
      exact ih e h fun p2 hp2 => hq p2 (List.mem_cons_of_mem _ hp2)
  | case4 nm oid rest vis acc hvis d hv ht ih =>
      intro e h hq
      rw [discoverAux_input_top _ _ _ _ _ _ _ _ hvis hv ht] at h
      exact ih e h fun p2 hp2 => hq p2 (List.mem_cons_of_mem _ hp2)
  | case5 nm oid rest vis acc hvis d hv ht =>
      intro e h hq
      rw [discoverAux_input_nested _ _ _ _ _ _ _ _ hvis hv ht] at h
      cases h
      rcases hq (nm, oid) (List.mem_cons_self _ _) with htp | hb
      · exact absurd htp ht
      · exact ⟨nm, inputPlacementMsg, rfl, hb⟩
  | case6 nm oid rest vis acc hvis d hv ht ih =>
      intro e h hq
      rw [discoverAux_output_top _ _ _ _ _ _ _ _ hvis hv ht] at h
      exact ih e h fun p2 hp2 => hq p2 (List.mem_cons_of_mem _ hp2)
  | case7 nm oid rest vis acc hvis d hv ht =>
      intro e h hq
      rw [discoverAux_output_nested _ _ _ _ _ _ _ _ hvis hv ht] at h
      cases h
      rcases hq (nm, oid) (List.mem_cons_self _ _) with htp | hb
      · exact absurd htp ht
      · exact ⟨nm, outputPlacementMsg, rfl, hb⟩
  | case8 nm oid rest vis acc hvis elems hv ih =>
      intro e h hq
      rw [discoverAux_list _ _ _ _ _ _ _ _ hvis hv] at h
      refine ih e h ?_
      intro p2 hp2
      rcases List.mem_append.mp hp2 with hp2 | hp2
      · exact hq p2 (List.mem_cons_of_mem _ hp2)
      · exact Or.inr (childEntries_bracket nm _ _ hp2)
  | case9 nm oid rest vis acc hvis entries hv ih =>
      intro e h hq
      rw [discoverAux_dict _ _ _ _ _ _ _ _ hvis hv] at h
      refine ih e h ?_
      intro p2 hp2
      rcases List.mem_append.mp hp2 with hp2 | hp2
      · exact hq p2 (List.mem_cons_of_mem _ hp2)
      · exact Or.inr (childEntries_bracket nm _ _ hp2)
  | case10 nm oid rest vis acc hvis hv ih =>
      intro e h hq
      rw [discoverAux_other _ _ _ _ _ _ _ hvis hv] at h
      exact ih e h fun p2 hp2 => hq p2 (List.mem_cons_of_mem _ hp2)
  | case11 nm oid rest vis acc hvis hv ih =>
      intro e h hq
      rw [discoverAux_none _ _ _ _ _ _ _ hvis hv] at h
      exact ih e h fun p2 hp2 => hq p2 (List.mem_cons_of_mem _ hp2)

/-- Appending one collected entry to any of the three lists adds exactly its
address to the collected-address multiset. -/
theorem discIds_insert_perm (acc : DiscResult) (nm : String) (oid : Nat) :
    ((discIds { acc with inputs := acc.inputs ++ [(nm, oid)] }).Perm
        (oid :: discIds acc))
    ∧ ((discIds { acc with outputs := acc.outputs ++ [(nm, oid)] }).Perm
        (oid :: discIds acc))
    ∧ ((discIds { acc with nodes := acc.nodes ++ [(nm, oid)] }).Perm
        (oid :: discIds acc)) := by
  unfold discIds
  simp only [List.map_append, List.map_cons, List.map_nil]
  refine ⟨?_, ?_, ?_⟩
  · have he : (acc.inputs.map Prod.snd ++ [oid]) ++ acc.outputs.map Prod.snd
        ++ acc.nodes.map Prod.snd
        = acc.inputs.map Prod.snd
            ++ oid :: (acc.outputs.map Prod.snd ++ acc.nodes.map Prod.snd) := by simp
    rw [he, List.append_assoc (acc.inputs.map Prod.snd)]
    exact List.perm_middle
  · have he : acc.inputs.map Prod.snd ++ (acc.outputs.map Prod.snd ++ [oid])
        ++ acc.nodes.map Prod.snd
        = (acc.inputs.map Prod.snd ++ acc.outputs.map Prod.snd)
            ++ oid :: acc.nodes.map Prod.snd := by simp
    rw [he]
    exact List.perm_middle
  · have he : acc.inputs.map Prod.snd ++ acc.outputs.map Prod.snd
        ++ (acc.nodes.map Prod.snd ++ [oid])
        = (acc.inputs.map Prod.snd ++ acc.outputs.map Prod.snd
            ++ acc.nodes.map Prod.snd) ++ [oid] := by simp
    rw [he]
    exact List.perm_append_singleton _ _

/-- The collected entities have pairwise-distinct addresses: the
identity-keyed visited set admits each object at most once. -/
theorem discoverAux_ids_nodup (heap : List ObjVal) (tops : List String) :
    ∀ (q : List (String × Nat)) (vis : Finset ℕ) (acc : DiscResult) (r : DiscResult)
      (vf : Finset ℕ), discoverAux heap tops q vis acc = .ok (r, vf) →
      (discIds acc).Nodup → (∀ i ∈ discIds acc, i ∈ vis) → (discIds r).Nodup := by
  intro q vis acc
  induction q, vis, acc using discoverAux.induct heap tops with
  | case1 vis acc =>
      intro r vf h hnd hinv
      rw [discoverAux_nil] at h
      cases h
      exact hnd
  | case2 nm oid rest vis acc hvis ih =>
      intro r vf h hnd hinv
      rw [discoverAux_visited _ _ _ _ _ _ _ hvis] at h
      exact ih r vf h hnd hinv
  | case3 nm oid rest vis acc hvis hn hv ih =>
      intro r vf h hnd hinv
      rw [discoverAux_node _ _ _ _ _ _ _ _ hvis hv] at h
      have hperm := (discIds_insert_perm acc nm oid).2.2
      have noid : oid ∉ discIds acc := fun hin => hvis (hinv _ hin)
      refine ih r vf h (hperm.nodup_iff.mpr (List.nodup_cons.mpr ⟨noid, hnd⟩)) ?_
      intro i hi
      rcases List.mem_cons.mp (hperm.mem_iff.mp hi) with rfl | hi'
      · exact Finset.mem_insert_self _ _
      · exact Finset.mem_insert_of_mem (hinv i hi')
  | case4 nm oid rest vis acc hvis d hv ht ih =>
      intro r vf h hnd hinv
      rw [discoverAux_input_top _ _ _ _ _ _ _ _ hvis hv ht] at h
      have hperm := (discIds_insert_perm acc nm oid).1
      have noid : oid ∉ discIds acc := fun hin => hvis (hinv _ hin)
      refine ih r vf h (hperm.nodup_iff.mpr (List.nodup_cons.mpr ⟨noid, hnd⟩)) ?_
      intro i hi
      rcases List.mem_cons.mp (hperm.mem_iff.mp hi) with rfl | hi'
      · exact Finset.mem_insert_self _ _
      · exact Finset.mem_insert_of_mem (hinv i hi')
  | case5 nm oid rest vis acc hvis d hv ht =>
      intro r vf h hnd hinv
      rw [discoverAux_input_nested _ _ _ _ _ _ _ _ hvis hv ht] at h
      cases h
  | case6 nm oid rest vis acc hvis d hv ht ih =>
      intro r vf h hnd hinv
      rw [discoverAux_output_top _ _ _ _ _ _ _ _ hvis hv ht] at h
      have hperm := (discIds_insert_perm acc nm oid).2.1
      have noid : oid ∉ discIds acc := fun hin => hvis (hinv _ hin)
      refine ih r vf h (hperm.nodup_iff.mpr (List.nodup_cons.mpr ⟨noid, hnd⟩)) ?_
      intro i hi
      rcases List.mem_cons.mp (hperm.mem_iff.mp hi) with rfl | hi'
      · exact Finset.mem_insert_self _ _
      · exact Finset.mem_insert_of_mem (hinv i hi')
  | case7 nm oid rest vis acc hvis d hv ht =>
      intro r vf h hnd hinv
      rw [discoverAux_output_nested _ _ _ _ _ _ _ _ hvis hv ht] at h
      cases h
  | case8 nm oid rest vis acc hvis elems hv ih =>
      intro r vf h hnd hinv
      rw [discoverAux_list _ _ _ _ _ _ _ _ hvis hv] at h
      exact ih r vf h hnd fun i hi => Finset.mem_insert_of_mem (hinv i hi)
  | case9 nm oid rest vis acc hvis entries hv ih =>
      intro r vf h hnd hinv
      rw [discoverAux_dict _ _ _ _ _ _ _ _ hvis hv] at h
      exact ih r vf h hnd fun i hi => Finset.mem_insert_of_mem (hinv i hi)
  | case10 nm oid rest vis acc hvis hv ih =>
      intro r vf h hnd hinv
      rw [discoverAux_other _ _ _ _ _ _ _ hvis hv] at h
      exact ih r vf h hnd fun i hi => Finset.mem_insert_of_mem (hinv i hi)
  | case11 nm oid rest vis acc hvis hv ih =>
      intro r vf h hnd hinv
      rw [discoverAux_none _ _ _ _ _ _ _ hvis hv] at h
      exact ih r vf h hnd fun i hi => Finset.mem_insert_of_mem (hinv i hi)

/-- **C8.** Discovery is idempotent on object identity: every completed
discovery collects pairwise-distinct objects (each object at most once,
later visits skipped by the identity-keyed visited set); on a concrete
surface whose `Input` is aliased by two top-level attributes it is collected
exactly once under the first-discovered name (`dir()` order); and a cyclic
object graph terminates without collecting anything. -/
theorem claimC8_discovery_idempotent :
    (∀ (s : Surface) (r : DiscResult) (vf : Finset ℕ),
        discoverWorkflowComponents s = .ok (r, vf) → (discIds r).Nodup)
    ∧ discoverComponentsOnly aliasSurface = .ok ⟨[("a", 0)], [], []⟩
    ∧ discoverComponentsOnly cyclicSurface = .ok ⟨[], [], []⟩ := by
  refine ⟨?_, ?_, ?_⟩
  · intro s r vf h
    unfold discoverWorkflowComponents at h
    exact discoverAux_ids_nodup s.heap (s.attrs.map Prod.fst) _ _ _ r vf h
      (by simp [discIds]) (by simp [discIds])
  · have h1 : aliasSurface.heap[0]? = some (.inputObj sampleInputA) := rfl
    simp +decide [discoverComponentsOnly, discoverWorkflowComponents, aliasSurface,
      List.insertionSort, List.orderedInsert, pairNameLe, Except.map,
      discoverAux_visited, discoverAux_input_top, discoverAux_nil, h1]
  · have h1 : cyclicSurface.heap[0]? = some (.listObj [0]) := rfl
    simp +decide [discoverComponentsOnly, discoverWorkflowComponents, cyclicSurface,
      List.insertionSort, List.orderedInsert, pairNameLe, Except.map,
      discoverAux_visited, discoverAux_list, discoverAux_nil, h1, childEntries,
      assignIndexedAttributeName, List.enum, List.enumFrom]

/-- Witness for C8: the general exactly-once statement applied to the aliased
surface. -/
theorem claimC8_discovery_idempotent_witness :
    ∃ r vf, discoverWorkflowComponents aliasSurface = .ok (r, vf) ∧ (discIds r).Nodup := by
  have h1 : aliasSurface.heap[0]? = some (.inputObj sampleInputA) := rfl
  have h : discoverWorkflowComponents aliasSurface
      = .ok (⟨[("a", 0)], [], []⟩, insert 0 ∅) := by
    simp +decide [discoverWorkflowComponents, aliasSurface,
      List.insertionSort, List.orderedInsert, pairNameLe,
      discoverAux_visited, discoverAux_input_top, discoverAux_nil, h1]
  exact ⟨_, _, h, claimC8_discovery_idempotent.1 aliasSurface _ _ h⟩

/-- **C7.** With bracket-free top-level attribute names (Python identifiers):
(a) every collected `Input`/`Output` entry is a top-level attribute pair
(reached directly, renamed to the attribute name); (b) every discovery error
is a placement error naming a synthesized (bracketed) attribute path; (c) an
`Input`/`Output` object reachable on the surface but not sitting directly at
any top-level attribute forces discovery to fail; (d) an `Input`/`Output`
directly at a top-level attribute is collected under a top-level attribute
name referencing it. -/
theorem claimC7_io_placement (s : Surface)
    (hb : ∀ nm ∈ s.attrs.map Prod.fst, hasBracket nm = false) :
    (∀ r, discoverComponentsOnly s = .ok r → ∀ p ∈ r.inputs ++ r.outputs, p ∈ s.attrs)
    ∧ (∀ e, discoverComponentsOnly s = .error e →
        ∃ a m, e = .flyteValue a m ∧ hasBracket a = true)
    ∧ (∀ z, ReachesObj s z → isEntityIO s.heap z → (∀ p ∈ s.attrs, p.2 ≠ z) →
        ∃ e, discoverComponentsOnly s = .error e)
    ∧ (∀ r nm z, discoverComponentsOnly s = .ok r → (nm, z) ∈ s.attrs →
        isEntityIO s.heap z →
        ∃ nm2, (nm2, z) ∈ r.inputs ++ r.outputs ∧ (nm2, z) ∈ s.attrs) := by
  have hqmem : ∀ p : String × Nat,
      p ∈ List.insertionSort pairNameLe s.attrs ↔ p ∈ s.attrs :=
    fun p => (List.perm_insertionSort pairNameLe s.attrs).mem_iff
  refine ⟨?_, ?_, ?_, ?_⟩
  · intro r hok p hp
    unfold discoverComponentsOnly at hok
    cases hd : discoverWorkflowComponents s with
    | error e => rw [hd] at hok; simp [Except.map] at hok
    | ok rv =>
        rw [hd] at hok
        simp only [Except.map, Except.ok.injEq] at hok
        obtain ⟨r0, vf⟩ := rv
        subst hok
        unfold discoverWorkflowComponents at hd
        exact discoverAux_collected_sound s.heap (s.attrs.map Prod.fst) s.attrs hb
          _ _ _ _ _ hd (fun p2 hp2 => Or.inl ((hqmem p2).mp hp2)) (by simp) p hp
  · intro e herr
    unfold discoverComponentsOnly at herr
    cases hd : discoverWorkflowComponents s with
    | error e2 =>
        rw [hd] at herr
        simp only [Except.map, Except.error.injEq] at herr
        subst herr
        unfold discoverWorkflowComponents at hd
        exact discoverAux_error_name s.heap (s.attrs.map Prod.fst) hb _ _ _ _ hd
          fun p2 hp2 => Or.inl (List.mem_map_of_mem Prod.fst ((hqmem p2).mp hp2))
    | ok rv => rw [hd] at herr; simp [Except.map] at herr
  · intro z hreach hio hnot
    cases hd : discoverWorkflowComponents s with
    | error e => exact ⟨e, by simp [discoverComponentsOnly, hd, Except.map]⟩
    | ok rv =>
        exfalso
        obtain ⟨r0, vf⟩ := rv
        unfold discoverWorkflowComponents at hd
        have hvf : ∀ y, ReachesObj s y → y ∈ vf := by
          intro y hy
          induction hy with
          | top nm2 oid2 hmem =>
              exact discoverAux_processed s.heap (s.attrs.map Prod.fst) _ _ _ _ _ hd
                (nm2, oid2) ((hqmem _).mpr hmem)
          | child cid oid2 v hr hv hchild ih =>
              exact discoverAux_closure s.heap (s.attrs.map Prod.fst) _ _ _ _ _ hd
                cid v ih (Finset.not_mem_empty cid) hv oid2 hchild
        obtain ⟨nm, hq, _, _⟩ := discoverAux_io_entry s.heap (s.attrs.map Prod.fst)
          hb _ _ _ _ _ hd z (hvf z hreach) (Finset.not_mem_empty z) hio
        exact hnot (nm, z) ((hqmem _).mp hq) rfl
  · intro r nm z hok hattr hio
    unfold discoverComponentsOnly at hok
    cases hd : discoverWorkflowComponents s with
    | error e => rw [hd] at hok; simp [Except.map] at hok
    | ok rv =>
        rw [hd] at hok
        simp only [Except.map, Except.ok.injEq] at hok
        obtain ⟨r0, vf⟩ := rv
        subst hok
        unfold discoverWorkflowComponents at hd
        have hzvf : z ∈ vf :=
          discoverAux_processed s.heap (s.attrs.map Prod.fst) _ _ _ _ _ hd (nm, z)
            ((hqmem _).mpr hattr)
        obtain ⟨nm2, hq2, _, hcoll⟩ := discoverAux_io_entry s.heap
          (s.attrs.map Prod.fst) hb _ _ _ _ _ hd z hzvf (Finset.not_mem_empty z) hio
        exact ⟨nm2, hcoll, (hqmem _).mp hq2⟩

/-- Witness for C7: the surface whose only `Input` sits inside a list makes
discovery fail, by the nested-placement conjunct. -/
theorem claimC7_io_placement_witness :
    ∃ e, discoverComponentsOnly nestedInputSurface = .error e :=
  (claimC7_io_placement nestedInputSurface (by decide)).2.2.1 1
    (ReachesObj.child 0 1 (.listObj [1])
      (ReachesObj.top "lst" 0 (by simp [nestedInputSurface])) rfl
      (by simp [childIds]))
    (Or.inl ⟨sampleInputA, rfl⟩)
    (by decide)

/-- Renaming on materialization: the collected `Input` carries exactly the
synthesized name. -/
theorem materializeInput_name (heap : List ObjVal) (p : String × Nat) :
    (materializeInput heap p).name = p.1 := by
  unfold materializeInput
  split <;> rfl

/-- Renaming on materialization: the collected `Output` carries exactly the
synthesized name. -/
theorem materializeOutput_name (heap : List ObjVal) (p : String × Nat) :
    (materializeOutput heap p).name = p.1 := by
  unfold materializeOutput
  split <;> rfl

/-- Id assignment on materialization: the collected node's id is the
synthesized name. -/
theorem materializeNode_id (heap : List ObjVal) (collected : List (String × Nat))
    (p : String × Nat) : (materializeNode heap collected p).id = some p.1 := by
  unfold materializeNode
  split <;> rfl

/-- Sorting name/address pairs by name yields a name list sorted by `≤`. -/
theorem sorted_fst_insertionSort (l : List (String × Nat)) :
    List.Sorted (· ≤ ·) ((List.insertionSort pairNameLe l).map Prod.fst) :=
  List.Pairwise.map Prod.fst (fun _ _ hab => hab)
    (List.sorted_insertionSort pairNameLe l)

/-- Constructing with explicit interface and output bindings (metadata still
optional) succeeds exactly on the upstream-id check. -/
theorem construct_iface_given (N : List SdkNode) (idv : Identifier)
    (mdO : Option WfMeta) (mddO : Option WfMetaDefaults) (iface : TypedInterface)
    (ob : List Binding) (fresh : Identifier) (h : upstreamUnassigned N = false) :
    SdkWorkflow.construct none none N (some idv) mdO mddO (some iface) (some ob) fresh
      = .ok (.mk idv (mdO.getD ⟨none⟩) (mddO.getD ⟨none⟩) iface N ob none) := by
  unfold SdkWorkflow.construct
  simp [h, Bind.bind, Except.bind]

/-- **C10.** Building a workflow from a declaration surface always produces a
workflow whose input list and output-binding list are sorted by name and
whose node list is sorted by (assigned) node id, whatever order discovery
encountered the entities in. -/
theorem claimC10_build_canonical (s : Surface) (onF : Option Nat) (fid : Identifier)
    (pw : PythonWorkflow)
    (h : buildSdkWorkflowFromMetaclass s onF fid = .ok pw) :
    List.Sorted (· ≤ ·) (pw.workflowInputs.map WfInput.name)
    ∧ List.Sorted (· ≤ ·) (pw.flyteWorkflow.outputs.map Binding.var)
    ∧ ∃ ids, pw.flyteWorkflow.nodes.map SdkNode.id = ids.map some
        ∧ List.Sorted (· ≤ ·) ids := by
  unfold buildSdkWorkflowFromMetaclass at h
  cases hd : discoverWorkflowComponents s with
  | error e => rw [hd] at h; simp [Bind.bind, Except.bind] at h
  | ok rv =>
      rw [hd] at h
      simp only [Bind.bind, Except.bind] at h
      unfold PythonWorkflow.constructFromClassDefinition at h
      by_cases hch : upstreamUnassigned
          ((List.insertionSort pairNameLe rv.1.nodes).map
            (materializeNode s.heap rv.1.nodes))
      · simp [hch] at h
      · rw [if_neg hch] at h
        simp only [Bind.bind, Except.bind] at h
        rw [construct_iface_given _ _ _ _ _ _ _ (by simpa using hch)] at h
        simp only [Except.ok.injEq] at h
        subst h
        refine ⟨?_, ?_, ?_⟩
        · show List.Sorted (· ≤ ·)
            (((List.insertionSort pairNameLe rv.1.inputs).map
              (materializeInput s.heap)).map WfInput.name)
          have he : ((List.insertionSort pairNameLe rv.1.inputs).map
              (materializeInput s.heap)).map WfInput.name
              = (List.insertionSort pairNameLe rv.1.inputs).map Prod.fst := by
            rw [List.map_map]
            apply List.map_congr_left
            intro p _
            exact materializeInput_name _ _
          rw [he]
          exact sorted_fst_insertionSort _
        · show List.Sorted (· ≤ ·)
            ((((List.insertionSort pairNameLe rv.1.outputs).map
              (materializeOutput s.heap)).map
                fun o => (⟨o.name, o.bindingData⟩ : Binding)).map Binding.var)
          have he : (((List.insertionSort pairNameLe rv.1.outputs).map
              (materializeOutput s.heap)).map
                fun o => (⟨o.name, o.bindingData⟩ : Binding)).map Binding.var
              = (List.insertionSort pairNameLe rv.1.outputs).map Prod.fst := by
            rw [List.map_map, List.map_map]
            apply List.map_congr_left
            intro p _
            exact materializeOutput_name _ _
          rw [he]
          exact sorted_fst_insertionSort _
        · refine ⟨(List.insertionSort pairNameLe rv.1.nodes).map Prod.fst, ?_, ?_⟩
          · show ((List.insertionSort pairNameLe rv.1.nodes).map
                (materializeNode s.heap rv.1.nodes)).map SdkNode.id
              = ((List.insertionSort pairNameLe rv.1.nodes).map Prod.fst).map some
            rw [List.map_map, List.map_map]
            apply List.map_congr_left
            intro p _
            exact materializeNode_id _ _ _
          · exact sorted_fst_insertionSort _

/-- Witness for C10: the concrete surface (attributes deliberately listed out
of order) builds to sorted inputs and id-sorted nodes. -/
theorem claimC10_build_canonical_witness :
    buildSdkWorkflowFromMetaclass buildSurface none sampleIdentifier = .ok builtSample
    ∧ List.Sorted (· ≤ ·) (builtSample.workflowInputs.map WfInput.name)
    ∧ ∃ ids, builtSample.flyteWorkflow.nodes.map SdkNode.id = ids.map some
        ∧ List.Sorted (· ≤ ·) ids := by
  have h0 : buildSurface.heap[0]? = some (.nodeObj ⟨none, [], []⟩) := rfl
  have h1 : buildSurface.heap[1]? = some (.inputObj sampleInputA) := rfl
  have h2 : buildSurface.heap[2]? = some (.nodeObj ⟨none, [0], []⟩) := rfl
  have hdisc : discoverWorkflowComponents buildSurface
      = .ok (⟨[("x", 1)], [], [("n1", 0), ("n2", 2)]⟩,
          insert 1 (insert 2 (insert 0 ∅))) := by
    simp +decide [discoverWorkflowComponents, buildSurface, List.insertionSort,
      List.orderedInsert, pairNameLe, discoverAux_visited, discoverAux_node,
      discoverAux_input_top, discoverAux_nil, h0, h1, h2]
  have hb : buildSdkWorkflowFromMetaclass buildSurface none sampleIdentifier
      = .ok builtSample := by
    unfold buildSdkWorkflowFromMetaclass
    rw [hdisc]
    simp +decide [Bind.bind, Except.bind, List.insertionSort, List.orderedInsert,
      pairNameLe, materializeInput, materializeOutput, materializeNode, assignedName,
      PythonWorkflow.constructFromClassDefinition, SdkWorkflow.construct,
      upstreamUnassigned, builtSample, builtN1, builtN2, sampleInputA, intVar,
      buildSurface, SdkNode.id, List.find?, h0, h2]
  have hcl := claimC10_build_canonical buildSurface none sampleIdentifier builtSample hb
  exact ⟨hb, hcl.1, hcl.2.2⟩
